import Mathlib

/-!
Verification of the uvm registry and path utilities.

This file is a shallow embedding, in Lean 4, of the parts of the `uvm`
repository that the specification talks about:

* `src/uvm/utilities/path_utils.py` — path normalisation and validation,
* `src/uvm/core/registry.py` — the `EnvironmentEntry` model and the
  JSON-backed `Registry` store.

Modelling conventions:

* A `pathlib.Path` is modelled by `Uvm.FsPath`: an absoluteness flag plus the
  list of components (the pathlib `parts` without the leading `"/"` anchor).
  `Path(string)` construction drops empty and `"."` components, exactly as
  pathlib does.  `str(path)` is `FsPath.render`.  The model has no symlinks,
  so `Path.resolve(strict=False)` is absolutisation against the current
  working directory plus lexical elimination of `"."`/`".."`.
* The ambient process state (`Path.home()`, the working directory used by
  `resolve`) is an explicit `Uvm.Ctx` parameter; the set of filesystem paths
  that exist (`Path.exists`) is an explicit `List FsPath` parameter.
* Python exceptions are an explicit `Except Uvm.UvmErr` result.  In Python,
  `OutsideManagedRootError` is a subclass of `InvalidPathError` (itself a
  `ValueError`), and `RegistryCorruptedError` of `RegistryError`; here each
  is its own constructor.
* `datetime` values are modelled by `Uvm.DT` (a linear clock in seconds plus
  an optional UTC-offset in minutes).  An ISO-8601 string is identified with
  the `DT` value it encodes; `Uvm.parseIsoDT` models `datetime.fromisoformat`
  on a representative subset of the grammar.
* Logging (`log.error`) and `chmod` calls, which the code performs but whose
  failures it swallows, have no observable effect and are not modelled.
-/

deriving instance DecidableEq for Except

namespace Uvm

/-- The error taxonomy of the repository, flattened to one inductive. -/
inductive UvmErr where
  | invalidPath
  | outsideManagedRoot
  | registryCorrupted
  | entryAlreadyExists
  | entryNotFound
  | valueError
  | ioError
deriving DecidableEq, Repr

/-- A filesystem path: absoluteness flag plus components, modelling
`pathlib.Path`. -/
structure FsPath where
  absolute : Bool
  parts : List String
deriving DecidableEq, Repr

/-- Split a character list at a separator character (used to model how
`pathlib` splits a path string on `"/"`). -/
def splitCharAux (sep : Char) : List Char → List Char → List String
  | [], acc => [String.mk acc.reverse]
  | c :: cs, acc =>
    if c = sep then String.mk acc.reverse :: splitCharAux sep cs []
    else splitCharAux sep cs (c :: acc)

/-- Split a string on a separator character. -/
def splitChar (sep : Char) (s : String) : List String :=
  splitCharAux sep s.data []

/-- Model of `pathlib.Path(s)`: a leading slash means absolute; empty and
`"."` components are dropped (pathlib normalises both away). -/
def parsePath (s : String) : FsPath :=
  { absolute := s.data.head? = some '/'
    parts := (splitChar '/' s).filter (fun c => c ≠ "" && c ≠ ".") }

/-- Join strings with `"/"` separators. -/
def joinSlash : List String → String
  | [] => ""
  | [x] => x
  | x :: xs => x ++ "/" ++ joinSlash xs

/-- Model of `str(path)`: `"/a/b"` for absolute paths, `"a/b"` for relative
ones, `"."` for the empty relative path, `"/"` for the root. -/
def FsPath.render (p : FsPath) : String :=
  if p.absolute then "/" ++ joinSlash p.parts
  else if p.parts.isEmpty then "."
  else joinSlash p.parts

/-- Whether a string contains a NUL byte. -/
def containsNullByte (s : String) : Bool :=
  s.data.any (fun c => c = Char.ofNat 0)

/-- Exception propagation: run the continuation unless an exception is
already in flight (the implicit control flow of Python). -/
def exbind {α β : Type} (x : Except UvmErr α) (f : α → Except UvmErr β) :
    Except UvmErr β :=
  match x with
  | .error e => .error e
  | .ok a => f a

@[simp] theorem exbind_error {α β : Type} (e : UvmErr) (f : α → Except UvmErr β) :
    exbind (.error e) f = .error e := rfl

@[simp] theorem exbind_ok {α β : Type} (a : α) (f : α → Except UvmErr β) :
    exbind (.ok a) f = f a := rfl

/-- The ambient process context: the home directory of the user (`Path.home()`)
and the current working directory (used by `Path.resolve`). -/
structure Ctx where
  home : FsPath
  cwd : FsPath
deriving DecidableEq, Repr

/-- Model of `Path.expanduser()`: a *relative* path whose first component is
exactly `"~"` is spliced onto the home directory; everything else is
unchanged. -/
def expandUser (home : FsPath) (p : FsPath) : FsPath :=
  match p.parts with
  | "~" :: rest => if p.absolute then p else ⟨home.absolute, home.parts ++ rest⟩
  | _ => p

/-- Model of `expand_user_path` from `path_utils.py`: expand the leading
`"~"`, then fail with `InvalidPathError` if the result has no components.
(A Python absolute path always has the `"/"` anchor part, so only an empty
relative path can fail.) -/
def expandUserPath (home : FsPath) (p : FsPath) : Except UvmErr FsPath :=
  let q := expandUser home p
  if !q.absolute && q.parts.isEmpty then .error .invalidPath else .ok q

/-- Lexical resolution stack: drop `"."`, pop on `".."` (a `".."` at the root
stays at the root, as in POSIX), push anything else.  The accumulator is the
reversed output. -/
def resolveAcc : List String → List String → List String
  | acc, [] => acc.reverse
  | acc, c :: rest =>
    if c = "." then resolveAcc acc rest
    else if c = ".." then resolveAcc (acc.drop 1) rest
    else resolveAcc (c :: acc) rest

/-- Model of `Path.resolve(strict=False)` in a symlink-free filesystem:
absolutise against the working directory and eliminate `"."`/`".."`. -/
def resolve (cwd : FsPath) (p : FsPath) : FsPath :=
  { absolute := true
    parts := resolveAcc [] (if p.absolute then p.parts else cwd.parts ++ p.parts) }

/-- Model of `normalize_env_path`: expand the user component (failing on an
empty path), then canonicalise without requiring existence. -/
def normalizeEnvPath (ctx : Ctx) (p : FsPath) : Except UvmErr FsPath :=
  (expandUserPath ctx.home p).map (resolve ctx.cwd)

/-- Whether `child.relative_to(root)` succeeds: same absoluteness, and the components
of `root` are an initial segment of those of `child`. -/
def leadsTo : List String → List String → Bool
  | [], _ => true
  | _ :: _, [] => false
  | a :: as, b :: bs => a = b && leadsTo as bs

/-- Whether `child.relative_to(root)` succeeds (`root` equal to or an ancestor
of `child`). -/
def relativeToOk (root child : FsPath) : Bool :=
  root.absolute = child.absolute && leadsTo root.parts child.parts

/-- Model of `is_within_home`: normalise the value and test whether it is a
descendant of (or equal to) the resolved home directory.  The Python function
would propagate `InvalidPathError` from normalisation, hence the `Except`. -/
def isWithinHome (ctx : Ctx) (value : FsPath) : Except UvmErr Bool :=
  (normalizeEnvPath ctx value).map
    (fun path => relativeToOk (resolve ctx.cwd ctx.home) path)

/-- Model of `validate_safe_path`: reject NUL bytes in the raw string form,
then any raw `".."` component, then normalise (which rejects the empty path),
reject a non-absolute result and — unless `allow_outside_home` — a result
outside the home directory. -/
def validateSafePath (ctx : Ctx) (allowOutsideHome : Bool) (value : FsPath) :
    Except UvmErr FsPath :=
  if containsNullByte value.render then .error .invalidPath
  else if value.parts.any (fun c => c = "..") then .error .invalidPath
  else
    exbind (normalizeEnvPath ctx value) (fun normalized =>
      if !normalized.absolute then .error .invalidPath
      else if allowOutsideHome then .ok normalized
      else
        exbind (isWithinHome ctx normalized) (fun within =>
          if !within then .error .invalidPath else .ok normalized))

/-- The default uvm home `Path.home() / ".uvm"`, resolved without requiring
existence. -/
def uvmDefaultHome (ctx : Ctx) : FsPath :=
  resolve ctx.cwd ⟨ctx.home.absolute, ctx.home.parts ++ [".uvm"]⟩

/-- Model of `get_uvm_home`: a non-empty `UVM_HOME` value is validated with
outside-home allowed; an unset or empty variable falls back to `~/.uvm`.
The environment mapping is modelled by the value of its only read key. -/
def getUvmHome (ctx : Ctx) (uvmHomeVar : Option String) : Except UvmErr FsPath :=
  match uvmHomeVar with
  | some raw => if raw ≠ "" then validateSafePath ctx true (parsePath raw)
                else .ok (uvmDefaultHome ctx)
  | none => .ok (uvmDefaultHome ctx)

/-- Model of `get_managed_env_root`: `get_uvm_home(environ) / "envs"`,
resolved without requiring existence. -/
def getManagedEnvRoot (ctx : Ctx) (uvmHomeVar : Option String) : Except UvmErr FsPath :=
  (getUvmHome ctx uvmHomeVar).map
    (fun h => resolve ctx.cwd ⟨h.absolute, h.parts ++ ["envs"]⟩)

/-- Model of `ensure_managed_env_path`: validate safely (outside home
allowed), then require the result to be under the managed root. -/
def ensureManagedEnvPath (ctx : Ctx) (uvmHomeVar : Option String) (value : FsPath) :
    Except UvmErr FsPath :=
  exbind (validateSafePath ctx true value) (fun normalized =>
    exbind (getManagedEnvRoot ctx uvmHomeVar) (fun root =>
      if relativeToOk root normalized then .ok normalized
      else .error .outsideManagedRoot))

/-- Python whitespace for `str.strip()` (ASCII subset). -/
def isPyWs (c : Char) : Bool :=
  c = ' ' || c = '\t' || c = '\n' || c = '\r' || c = Char.ofNat 11 || c = Char.ofNat 12

/-- Model of `str.strip()`: drop leading and trailing whitespace. -/
def pyStrip (s : String) : String :=
  String.mk (((s.data.dropWhile isPyWs).reverse.dropWhile isPyWs).reverse)

/-- A `datetime` value: a linear clock in seconds together with an optional
UTC offset in minutes (`none` models a naive timestamp). -/
structure DT where
  clock : Int
  off : Option Int
deriving DecidableEq, Repr

/-- The `created_at` coercion from `EnvironmentEntry.__post_init__`: a naive
timestamp is declared UTC with the clock unchanged (`replace(tzinfo=utc)`),
an aware one is converted (`astimezone(utc)`). -/
def tzNormalize (d : DT) : DT :=
  match d.off with
  | none => { d with off := some 0 }
  | some o => { clock := d.clock - o * 60, off := some 0 }

/-- A JSON-serialisable metadata value.  The registry passes metadata values
through untouched, so scalars are modelled exactly and any array or nested
object is collapsed to the opaque `composite` constructor. -/
inductive JVal where
  | null
  | jb (x : Bool)
  | ji (n : Int)
  | js (x : String)
  | composite (id : Nat)
deriving DecidableEq, Repr

/-- A Python dict key as it may appear in a metadata mapping: a string, or a
non-string key (tagged by an id), which `_ensure_metadata` rejects. -/
inductive MKey where
  | str (s : String)
  | nonStr (id : Nat)
deriving DecidableEq, Repr

/-- The value found under the `metadata` key of a record: absent/`None`, a
mapping, or a non-mapping value with the given truthiness. -/
inductive MetaField where
  | noneV
  | map (l : List (MKey × JVal))
  | other (truthy : Bool)
deriving DecidableEq, Repr

/-- Key loop of `_ensure_metadata`: copy entries, failing with `ValueError`
at the first non-string key. -/
def ensureMetadataKeys : List (MKey × JVal) → Except UvmErr (List (String × JVal))
  | [] => .ok []
  | (MKey.str k, v) :: rest => (ensureMetadataKeys rest).map (fun tl => (k, v) :: tl)
  | (MKey.nonStr _, _) :: _ => .error .valueError

/-- Model of `_ensure_metadata`: falsy metadata (absent, `None`, `{}`, or any
falsy non-mapping) becomes `{}`; a truthy non-mapping is a `ValueError`; a
mapping must have string keys. -/
def ensureMetadataFn (m : MetaField) : Except UvmErr (List (String × JVal)) :=
  match m with
  | .noneV => .ok []
  | .map l => if l.isEmpty then .ok [] else ensureMetadataKeys l
  | .other t => if t then .error .valueError else .ok []

/-- The in-memory representation of one registered environment
(`EnvironmentEntry` after `__post_init__` has run). -/
structure EnvironmentEntry where
  name : String
  location : FsPath
  python_version : Option JVal
  created_at : Option DT
  is_project_local : Bool
  metadata : List (String × JVal)
deriving DecidableEq, Repr

/-- Whether a path exists on the (explicitly passed) filesystem. -/
def existsOnFs (fs : List FsPath) (p : FsPath) : Bool :=
  fs.any (fun q => decide (q = p))

/-- Model of `EnvironmentEntry` construction (`__init__` plus
`__post_init__`): strip the name and fail on blank, normalise the location,
validate it safely (outside home allowed) when it does not exist, coerce the
timestamp to UTC, and coerce the metadata. -/
def mkEntry (ctx : Ctx) (fs : List FsPath) (name : String) (location : FsPath)
    (python_version : Option JVal) (created_at : Option DT)
    (is_project_local : Bool) (metadata : MetaField) :
    Except UvmErr EnvironmentEntry :=
  let n := pyStrip name
  if n = "" then .error .valueError
  else
    exbind (normalizeEnvPath ctx location) (fun loc =>
      exbind (if existsOnFs fs loc then .ok ()
              else exbind (validateSafePath ctx true loc) (fun _ => .ok ())) (fun _ =>
        exbind (ensureMetadataFn metadata) (fun md =>
          .ok { name := n, location := loc, python_version := python_version
                created_at := created_at.map tzNormalize
                is_project_local := is_project_local, metadata := md })))

/-- The serialised form of one entry (`to_dict` output / `from_dict` input).
Every field is optional so that `from_dict` on partial records is
representable; `str(location)` is identified with the `FsPath` it denotes and
an ISO-8601 `created_at` string with the `DT` value it encodes. -/
structure Record where
  name : Option String := none
  location : Option FsPath := none
  python_version : Option JVal := none
  created_at : Option DT := none
  is_project_local : Option Bool := none
  metadata : MetaField := .noneV
deriving DecidableEq, Repr

/-- Model of `EnvironmentEntry.to_dict`. -/
def toRecord (e : EnvironmentEntry) : Record :=
  { name := some e.name
    location := some e.location
    python_version := e.python_version
    created_at := e.created_at
    is_project_local := some e.is_project_local
    metadata := .map (e.metadata.map (fun kv => (MKey.str kv.1, kv.2))) }

/-- Model of `EnvironmentEntry.from_dict`: missing `name` or `location` is
`RegistryCorruptedError`; the location is normalised and the metadata coerced
while evaluating the constructor arguments (in that order), then construction
itself validates again. -/
def fromRecord (ctx : Ctx) (fs : List FsPath) (r : Record) :
    Except UvmErr EnvironmentEntry :=
  match r.name, r.location with
  | some name, some loc =>
    exbind (normalizeEnvPath ctx loc) (fun locN =>
      exbind (ensureMetadataFn r.metadata) (fun md =>
        mkEntry ctx fs name locN r.python_version r.created_at
          (r.is_project_local.getD false)
          (.map (md.map (fun kv => (MKey.str kv.1, kv.2))))))
  | _, _ => .error .registryCorrupted

/-- A `with_update(**changes)` keyword set: each present field overrides the
corresponding key of the serialised record.  The doubly-optional fields can
override an optional value with `None`. -/
structure Changes where
  name : Option String := none
  location : Option FsPath := none
  python_version : Option (Option JVal) := none
  created_at : Option (Option DT) := none
  is_project_local : Option Bool := none
  metadata : Option MetaField := none
deriving DecidableEq, Repr

/-- Model of `updated.update(changes)` on the `to_dict` output. -/
def mergeChanges (r : Record) (c : Changes) : Record :=
  { name := match c.name with | some v => some v | none => r.name
    location := match c.location with | some v => some v | none => r.location
    python_version := match c.python_version with | some v => v | none => r.python_version
    created_at := match c.created_at with | some v => v | none => r.created_at
    is_project_local := match c.is_project_local with | some v => some v | none => r.is_project_local
    metadata := match c.metadata with | some v => v | none => r.metadata }

/-- Model of `EnvironmentEntry.with_update`: round-trip through
`to_dict`/`from_dict` merged with the changes. -/
def withUpdate (ctx : Ctx) (fs : List FsPath) (e : EnvironmentEntry) (c : Changes) :
    Except UvmErr EnvironmentEntry :=
  fromRecord ctx fs (mergeChanges (toRecord e) c)

/-- Components free of `"."` and `".."` (the shape `resolve` produces). -/
def noDots (l : List String) : Bool :=
  l.all (fun c => c ≠ "." && c ≠ "..")

/-- The invariant established by `EnvironmentEntry` construction: stripped
non-blank name, canonical absolute location that is either existing or safely
validatable, and a UTC timestamp. -/
def entryOkB (fs : List FsPath) (e : EnvironmentEntry) : Bool :=
  pyStrip e.name = e.name && e.name ≠ "" && e.location.absolute
    && noDots e.location.parts
    && (existsOnFs fs e.location || !containsNullByte e.location.render)
    && (match e.created_at with | none => true | some d => d.off = some 0)

/-- A parsed JSON value as produced by `json.load`: a scalar, or an object.
Arrays (and any deeper structure the registry never inspects) are folded
into the opaque `composite` scalar; objects represent Python dicts, so their
keys are unique. -/
inductive Json where
  | scalar (v : JVal)
  | obj (kvs : List (String × Json))

/-- Dict lookup (`payload.get(k)`). -/
def jlookup (kvs : List (String × Json)) (k : String) : Option Json :=
  (kvs.find? (fun kv => kv.1 == k)).map Prod.snd

/-- Python truthiness of a JSON value. -/
def jsonTruthy : Json → Bool
  | .scalar .null => false
  | .scalar (.jb b) => b
  | .scalar (.ji n) => n ≠ 0
  | .scalar (.js s) => s ≠ ""
  | .scalar (.composite _) => true
  | .obj kvs => !kvs.isEmpty

/-- Collapse a JSON value to the opaque metadata value model. -/
def jsonToJVal : Json → JVal
  | .scalar v => v
  | .obj _ => .composite 0

/-- Accumulate decimal digits; `none` on a non-digit. -/
def digitsToNatAux : List Char → Nat → Option Nat
  | [], acc => some acc
  | c :: cs, acc =>
    if c.isDigit then digitsToNatAux cs (acc * 10 + (c.toNat - 48)) else none

/-- Parse a non-empty all-digit string. -/
def digitsToNat (l : List Char) : Option Nat :=
  if l.isEmpty then none else digitsToNatAux l 0

/-- Model of Python `int(str)`: strip whitespace, optional sign, decimal
digits (underscore grouping and non-ASCII digits are outside the model). -/
def pyIntOfString (s : String) : Option Int :=
  match (pyStrip s).data with
  | '-' :: rest => (digitsToNat rest).map (fun n => -(n : Int))
  | '+' :: rest => (digitsToNat rest).map (fun n => (n : Int))
  | l => (digitsToNat l).map (fun n => (n : Int))

/-- Model of Python `int(value)` on a JSON value: ints pass through, bools
coerce (`int(True) == 1`), numeric strings parse, everything else raises
(`TypeError`/`ValueError`). -/
def pyIntOfJson : Json → Option Int
  | .scalar (.ji n) => some n
  | .scalar (.jb b) => some (if b then 1 else 0)
  | .scalar (.js s) => pyIntOfString s
  | _ => none

/-- Parse exactly two digits. -/
def parse2 (l : List Char) : Option Nat :=
  match l with
  | [a, b] => if a.isDigit && b.isDigit then some ((a.toNat - 48) * 10 + (b.toNat - 48)) else none
  | _ => none

/-- Parse exactly four digits. -/
def parse4 (l : List Char) : Option Nat :=
  match l with
  | [a, b, c, d] =>
    if a.isDigit && b.isDigit && c.isDigit && d.isDigit then
      some ((((a.toNat - 48) * 10 + (b.toNat - 48)) * 10 + (c.toNat - 48)) * 10 + (d.toNat - 48))
    else none
  | _ => none

/-- Leap years in `1..y`. -/
def leapsBefore (y : Nat) : Nat := y / 4 - y / 100 + y / 400

/-- Gregorian leap-year test. -/
def isLeapYear (y : Nat) : Bool := (y % 4 = 0 && y % 100 ≠ 0) || y % 400 = 0

/-- Days in the months strictly before month `m` of a non-leap year. -/
def cumMonthDays : Nat → Nat
  | 1 => 0 | 2 => 31 | 3 => 59 | 4 => 90 | 5 => 120 | 6 => 151
  | 7 => 181 | 8 => 212 | 9 => 243 | 10 => 273 | 11 => 304 | 12 => 334
  | _ => 0

/-- Days from 0001-01-01 to the given date. -/
def toOrdinalDays (y mo d : Nat) : Nat :=
  365 * (y - 1) + leapsBefore (y - 1) + cumMonthDays mo
    + (if 2 < mo && isLeapYear y then 1 else 0) + (d - 1)

/-- Parse `"YYYY-MM-DD"` into ordinal days. -/
def parseIsoDate (s : String) : Option Nat :=
  match splitChar '-' s with
  | [ys, ms, ds] =>
    match parse4 ys.data, parse2 ms.data, parse2 ds.data with
    | some y, some mo, some d =>
      if 1 ≤ y && 1 ≤ mo && mo ≤ 12 && 1 ≤ d && d ≤ 31 then some (toOrdinalDays y mo d)
      else none
    | _, _, _ => none
  | _ => none

/-- Parse `"HH:MM:SS"` into seconds since midnight. -/
def parseIsoTime (l : List Char) : Option Nat :=
  match splitCharAux ':' l [] with
  | [hs, ms, ss] =>
    match parse2 hs.data, parse2 ms.data, parse2 ss.data with
    | some h, some mi, some se =>
      if h ≤ 23 && mi ≤ 59 && se ≤ 59 then some (h * 3600 + mi * 60 + se) else none
    | _, _, _ => none
  | _ => none

/-- Parse a `"HH:MM"` UTC-offset body into minutes. -/
def parseOffsetHM (l : List Char) : Option Nat :=
  match splitCharAux ':' l [] with
  | [hs, ms] =>
    match parse2 hs.data, parse2 ms.data with
    | some h, some mi => if h ≤ 23 && mi ≤ 59 then some (h * 60 + mi) else none
    | _, _ => none
  | _ => none

/-- Parse the offset tail of an ISO timestamp: empty (naive), `"Z"`, or
`"+HH:MM"`/`"-HH:MM"`. -/
def parseIsoOffset : List Char → Option (Option Int)
  | [] => some none
  | ['Z'] => some (some 0)
  | '+' :: rest => (parseOffsetHM rest).map (fun m => some (m : Int))
  | '-' :: rest => (parseOffsetHM rest).map (fun m => some (-(m : Int)))
  | _ => none

/-- Model of `datetime.fromisoformat` on the subset
`YYYY-MM-DD[THH:MM:SS[Z|±HH:MM]]` (fractional seconds and the other
separators the stdlib accepts are outside the modelled subset). -/
def parseIsoDT (s : String) : Option DT :=
  match splitCharAux 'T' s.data [] with
  | [dateS] => (parseIsoDate dateS).map (fun days => ⟨(days : Int) * 86400, none⟩)
  | [dateS, timeOff] =>
    match parseIsoDate dateS, parseIsoTime (timeOff.data.take 8),
        parseIsoOffset (timeOff.data.drop 8) with
    | some days, some secs, some off => some ⟨(days : Int) * 86400 + (secs : Int), off⟩
    | _, _, _ => none
  | _ => none

/-- The `created_at` handling of `from_dict` on a JSON value: falsy means
absent; a truthy string is parsed (`ValueError` on garbage); a truthy
non-string raises (`TypeError`). -/
def createdAtOfJson (o : Option Json) : Except UvmErr (Option DT) :=
  match o with
  | none => .ok none
  | some j =>
    if !jsonTruthy j then .ok none
    else
      match j with
      | .scalar (.js s) =>
        match parseIsoDT s with
        | some d => .ok (some d)
        | none => .error .valueError
      | _ => .error .valueError

/-- The `metadata` handling of `from_dict` on a JSON value:
`payload.get("metadata") or {}`. -/
def metaFieldOfJson (o : Option Json) : MetaField :=
  match o with
  | none => .noneV
  | some j =>
    if !jsonTruthy j then .noneV
    else
      match j with
      | .obj kvs => .map (kvs.map (fun kv => (MKey.str kv.1, jsonToJVal kv.2)))
      | _ => .other true

/-- Model of `EnvironmentEntry.from_dict` applied to a JSON object (as in
`_deserialise_entries`): missing `name`/`location` is `RegistryCorrupted`;
then `created_at` is parsed, the location normalised (a non-string location
raises `InvalidPathError` out of `Path()`), the metadata coerced, and finally
construction runs (a non-string name raises at `.strip()`). -/
def jsonFromDict (ctx : Ctx) (fs : List FsPath) (kvs : List (String × Json)) :
    Except UvmErr EnvironmentEntry :=
  match jlookup kvs "name", jlookup kvs "location" with
  | some nameJ, some locJ =>
    let pv : Option JVal :=
      match jlookup kvs "python_version" with
      | none => none
      | some (.scalar .null) => none
      | some j => some (jsonToJVal j)
    exbind (createdAtOfJson (jlookup kvs "created_at")) (fun dt =>
      let ipl := jsonTruthy ((jlookup kvs "is_project_local").getD (.scalar (.jb false)))
      let mf := metaFieldOfJson (jlookup kvs "metadata")
      match locJ with
      | .scalar (.js s) =>
        exbind (normalizeEnvPath ctx (parsePath s)) (fun locN =>
          exbind (ensureMetadataFn mf) (fun md =>
            match nameJ with
            | .scalar (.js nm) =>
              mkEntry ctx fs nm locN pv dt ipl
                (.map (md.map (fun kv => (MKey.str kv.1, kv.2))))
            | _ => .error .valueError))
      | _ => .error .invalidPath)
  | _, _ => .error .registryCorrupted

/-- Stable insertion into a key-sorted association list (equal keys keep
their relative order, matching the stable `sorted` of Python). -/
def insByKey {α : Type} (x : String × α) : List (String × α) → List (String × α)
  | [] => [x]
  | y :: ys => if x.1 < y.1 then x :: y :: ys else y :: insByKey x ys

/-- Model of `sorted(items, key=lambda item: item[0])`. -/
def sortByKey {α : Type} (l : List (String × α)) : List (String × α) :=
  l.foldl (fun acc x => insByKey x acc) []

/-- Python dict assignment `m[k] = v`: replace in place if the key is
present, else append. -/
def alInsert (m : List (String × EnvironmentEntry)) (k : String) (v : EnvironmentEntry) :
    List (String × EnvironmentEntry) :=
  match m with
  | [] => [(k, v)]
  | (k0, v0) :: rest => if k0 = k then (k0, v) :: rest else (k0, v0) :: alInsert rest k v

/-- The entry loop of `_deserialise_entries`: records in name-sorted order,
each must be a mapping, each is deserialised with the own `name` of the record
taking precedence over the enclosing JSON key, and the result is keyed by
the `name` of the deserialised entry. -/
def deserialiseLoop (ctx : Ctx) (fs : List FsPath) :
    List (String × Json) → List (String × EnvironmentEntry) →
    Except UvmErr (List (String × EnvironmentEntry))
  | [], acc => .ok acc
  | (nm, pj) :: rest, acc =>
    match pj with
    | .obj fields =>
      let merged :=
        match jlookup fields "name" with
        | some _ => fields
        | none => fields ++ [("name", .scalar (.js nm))]
      exbind (jsonFromDict ctx fs merged)
        (fun e => deserialiseLoop ctx fs rest (alInsert acc e.name e))
    | _ => .error .registryCorrupted

/-- Model of `_deserialise_entries`: coerce a present `version` with `int()`
(`RegistryCorrupted` on failure), default a missing `version` to 1, require
the coerced version to equal 1, default a missing `environments` to `{}`,
require it to be a mapping, then deserialise the records sorted by key. -/
def deserialiseJson (ctx : Ctx) (fs : List FsPath) (kvs : List (String × Json)) :
    Except UvmErr (List (String × EnvironmentEntry)) :=
  let vRes : Except UvmErr Int :=
    match jlookup kvs "version" with
    | none => .ok 1
    | some j =>
      match pyIntOfJson j with
      | some n => .ok n
      | none => .error .registryCorrupted
  exbind vRes (fun v =>
    if v ≠ 1 then .error .registryCorrupted
    else
      match (jlookup kvs "environments").getD (.obj []) with
      | .obj envs => deserialiseLoop ctx fs (sortByKey envs) []
      | _ => .error .registryCorrupted)

/-- The serialised registry payload at the dict level (what `json.dump`
writes and `json.load` hands to `_deserialise_entries` on the round trip
through the own writer of the registry): the version tag plus the name-keyed
records. -/
structure Payload where
  version : Int
  environments : List (String × Record)
deriving DecidableEq, Repr

/-- Model of `_serialise_entries`: version 1 plus `to_dict` of every entry,
sorted by name. -/
def serialiseEntries (entries : List (String × EnvironmentEntry)) : Payload :=
  { version := 1
    environments := (sortByKey entries).map (fun kv => (kv.1, toRecord kv.2)) }

/-- The merge `{**entry_payload, "name": entry_payload.get("name", name)}`:
the own `name` of the record takes precedence, the JSON key is only a default. -/
def withNameDefault (k : String) (r : Record) : Record :=
  { r with name := some (r.name.getD k) }

/-- Python dict membership `k in m`. -/
def alMem (m : List (String × EnvironmentEntry)) (k : String) : Bool :=
  m.any (fun kv => decide (kv.1 = k))

/-- Python dict deletion `del m[k]` (keys are unique in a dict; this drops
the first occurrence). -/
def alRemove (m : List (String × EnvironmentEntry)) (k : String) :
    List (String × EnvironmentEntry) :=
  match m with
  | [] => []
  | (k0, v0) :: rest => if k0 = k then rest else (k0, v0) :: alRemove rest k

/-- The entry loop of `_deserialise_entries` at the dict level (every record
is a mapping here, because the payload was produced by `_serialise_entries`). -/
def deserialiseRecLoop (ctx : Ctx) (fs : List FsPath) :
    List (String × Record) → List (String × EnvironmentEntry) →
    Except UvmErr (List (String × EnvironmentEntry))
  | [], acc => .ok acc
  | (k, r) :: rest, acc =>
    exbind (fromRecord ctx fs (withNameDefault k r))
      (fun e => deserialiseRecLoop ctx fs rest (alInsert acc e.name e))

/-- Model of `_deserialise_entries` on a dict-level payload: exact version
match, then the records sorted by key, each keyed by the deserialised
`name` of the entry. -/
def deserialiseRecords (ctx : Ctx) (fs : List FsPath) (p : Payload) :
    Except UvmErr (List (String × EnvironmentEntry)) :=
  if p.version ≠ 1 then .error .registryCorrupted
  else deserialiseRecLoop ctx fs (sortByKey p.environments) []

/-- Observable persistence events of one registry operation. -/
inductive Ev where
  | lockAcquire
  | lockRelease
  | diskRead
  | diskWrite
deriving DecidableEq, Repr

/-- The on-disk world: the registry file (if it exists) and the set of
temporary files currently present in its directory. -/
structure World where
  registryFile : Option Payload
  tmpFiles : List FsPath
deriving DecidableEq, Repr

/-- Fault injection for `_write_payload`: no fault, `json.dump` raising
midway, or `Path.replace` (the atomic rename) raising. -/
inductive WriteFault where
  | noFault
  | dumpFails
  | renameFails
deriving DecidableEq, Repr

/-- The in-memory registry state: the entry map and the lazy-load flag. -/
structure RegistryState where
  entries : List (String × EnvironmentEntry)
  loaded : Bool
deriving DecidableEq, Repr

/-- The result of one registry operation: its Python return value or raised
exception, the in-memory state left behind, the resulting world, and the
persistence events in order. -/
structure Out (α : Type) where
  res : Except UvmErr α
  st : RegistryState
  w : World
  evs : List Ev
deriving DecidableEq

/-- The last path component (`Path.name`). -/
def lastNameOf (p : FsPath) : String :=
  p.parts.getLast?.getD ""

/-- The temporary path `self._path.with_name(f"{name}.tmp-{uuid4().hex}")`:
a sibling of the registry file whose name appends a fresh nonce. -/
def tmpPathOf (regPath : FsPath) (nonce : String) : FsPath :=
  ⟨regPath.absolute, regPath.parts.dropLast ++ [lastNameOf regPath ++ ".tmp-" ++ nonce]⟩

/-- Remove the first occurrence of a path (`Path.unlink` on our tmp list). -/
def eraseFirstPath : List FsPath → FsPath → List FsPath
  | [], _ => []
  | q :: rest, p => if q = p then rest else q :: eraseFirstPath rest p

/-- Model of `Registry._write_payload`: under the file lock, write the
payload to the fresh temporary sibling, then atomically rename it over the
target.  On a fault the temporary file is unlinked, the target is untouched
and the error propagates; on success the target holds exactly the payload
and the temporary file is gone. -/
def writePayload (regPath : FsPath) (nonce : String) (fault : WriteFault)
    (payload : Payload) (w : World) : Except UvmErr Unit × World × List Ev :=
  let tmp := tmpPathOf regPath nonce
  match fault with
  | .dumpFails =>
    let wMid : World := { w with tmpFiles := tmp :: w.tmpFiles }
    (.error .ioError, { wMid with tmpFiles := eraseFirstPath wMid.tmpFiles tmp },
      [.lockAcquire, .lockRelease])
  | .renameFails =>
    let wMid : World := { w with tmpFiles := tmp :: w.tmpFiles }
    (.error .ioError, { wMid with tmpFiles := eraseFirstPath wMid.tmpFiles tmp },
      [.lockAcquire, .lockRelease])
  | .noFault =>
    let wMid : World := { w with tmpFiles := tmp :: w.tmpFiles }
    (.ok (), { registryFile := some payload, tmpFiles := eraseFirstPath wMid.tmpFiles tmp },
      [.lockAcquire, .diskWrite, .lockRelease])

/-- Model of `Registry._ensure_loaded`: a no-op once loaded; an absent file
is the empty registry with no lock taken; otherwise the payload is read and
deserialised under the file lock (an exception leaves the state unloaded). -/
def ensureLoadedFn (ctx : Ctx) (fs : List FsPath) (w : World) (st : RegistryState) :
    Except UvmErr Unit × RegistryState × List Ev :=
  if st.loaded then (.ok (), st, [])
  else
    match w.registryFile with
    | none => (.ok (), { entries := [], loaded := true }, [])
    | some payload =>
      match deserialiseRecords ctx fs payload with
      | .error e => (.error e, st, [.lockAcquire, .diskRead, .lockRelease])
      | .ok entries => (.ok (), { entries := entries, loaded := true },
          [.lockAcquire, .diskRead, .lockRelease])

/-- Model of `Registry.add`: the managed-root requirement is checked before
anything else; then lazy load, the duplicate check (`overwrite` permitting),
insertion keyed by `entry.name`, and a full-map persistence write. -/
def addOp (ctx : Ctx) (fs : List FsPath) (uvmHomeVar : Option String)
    (regPath : FsPath) (nonce : String) (fault : WriteFault) (w : World)
    (st : RegistryState) (entry : EnvironmentEntry) (overwrite requireManaged : Bool) :
    Out Unit :=
  let core : Out Unit :=
    match ensureLoadedFn ctx fs w st with
    | (.error e, st1, evs) => ⟨.error e, st1, w, evs⟩
    | (.ok _, st1, evs) =>
      if !overwrite && alMem st1.entries entry.name then
        ⟨.error .entryAlreadyExists, st1, w, evs⟩
      else
        let st2 : RegistryState :=
          { entries := alInsert st1.entries entry.name entry, loaded := st1.loaded }
        match writePayload regPath nonce fault (serialiseEntries st2.entries) w with
        | (res, w2, evs2) => ⟨res, st2, w2, evs ++ evs2⟩
  if requireManaged then
    match ensureManagedEnvPath ctx uvmHomeVar entry.location with
    | .error e => ⟨.error e, st, w, []⟩
    | .ok _ => core
  else core

/-- Model of `Registry.update`: lazy load, `EntryNotFoundError` for an absent
name, otherwise replacement keyed by `entry.name` and a persistence write. -/
def updateOp (ctx : Ctx) (fs : List FsPath) (regPath : FsPath) (nonce : String)
    (fault : WriteFault) (w : World) (st : RegistryState) (entry : EnvironmentEntry) :
    Out Unit :=
  match ensureLoadedFn ctx fs w st with
  | (.error e, st1, evs) => ⟨.error e, st1, w, evs⟩
  | (.ok _, st1, evs) =>
    if !alMem st1.entries entry.name then
      ⟨.error .entryNotFound, st1, w, evs⟩
    else
      let st2 : RegistryState :=
        { entries := alInsert st1.entries entry.name entry, loaded := st1.loaded }
      match writePayload regPath nonce fault (serialiseEntries st2.entries) w with
      | (res, w2, evs2) => ⟨res, st2, w2, evs ++ evs2⟩

/-- Model of `Registry.remove`: `False` (and no write) for an absent name,
otherwise deletion and a persistence write, then `True`. -/
def removeOp (ctx : Ctx) (fs : List FsPath) (regPath : FsPath) (nonce : String)
    (fault : WriteFault) (w : World) (st : RegistryState) (name : String) :
    Out Bool :=
  match ensureLoadedFn ctx fs w st with
  | (.error e, st1, evs) => ⟨.error e, st1, w, evs⟩
  | (.ok _, st1, evs) =>
    if !alMem st1.entries name then
      ⟨.ok false, st1, w, evs⟩
    else
      let st2 : RegistryState :=
        { entries := alRemove st1.entries name, loaded := st1.loaded }
      match writePayload regPath nonce fault (serialiseEntries st2.entries) w with
      | (.ok _, w2, evs2) => ⟨.ok true, st2, w2, evs ++ evs2⟩
      | (.error e, w2, evs2) => ⟨.error e, st2, w2, evs ++ evs2⟩

/-- Model of `Registry.sync`: lazy load, collect the stale names in map
order, return `[]` with no write when none are stale, otherwise delete them,
persist once, and return the stale names. -/
def syncOp (ctx : Ctx) (fs : List FsPath) (regPath : FsPath) (nonce : String)
    (fault : WriteFault) (w : World) (st : RegistryState) :
    Out (List String) :=
  match ensureLoadedFn ctx fs w st with
  | (.error e, st1, evs) => ⟨.error e, st1, w, evs⟩
  | (.ok _, st1, evs) =>
    let stale := (st1.entries.filter (fun kv => !existsOnFs fs kv.2.location)).map Prod.fst
    if stale.isEmpty then
      ⟨.ok [], st1, w, evs⟩
    else
      let st2 : RegistryState :=
        { entries := stale.foldl alRemove st1.entries, loaded := st1.loaded }
      match writePayload regPath nonce fault (serialiseEntries st2.entries) w with
      | (.ok _, w2, evs2) => ⟨.ok stale, st2, w2, evs ++ evs2⟩
      | (.error e, w2, evs2) => ⟨.error e, st2, w2, evs ++ evs2⟩

/-- Model of `Registry.reload`: reset the lazy-load flag, clear the map, and
re-enter `_ensure_loaded` immediately. -/
def reloadOp (ctx : Ctx) (fs : List FsPath) (w : World) (_st : RegistryState) :
    Except UvmErr Unit × RegistryState × List Ev :=
  ensureLoadedFn ctx fs w { entries := [], loaded := false }

/-- The content of the registry file: invalid JSON, or a parsed value. -/
inductive FileJson where
  | invalid
  | val (j : Json)

/-- Model of `Registry._read_payload`: an absent file is the empty registry;
invalid JSON and a non-object top level are `RegistryCorrupted`; otherwise
`_deserialise_entries` runs. -/
def readPayload (ctx : Ctx) (fs : List FsPath) (fileExists : Bool) (content : FileJson) :
    Except UvmErr (List (String × EnvironmentEntry)) :=
  if !fileExists then .ok []
  else
    match content with
    | .invalid => .error .registryCorrupted
    | .val (.obj kvs) => deserialiseJson ctx fs kvs
    | .val _ => .error .registryCorrupted

/-! ### Concrete objects used by witnesses -/

/-- A concrete process context: home and working directory `/home/u`. -/
def ctx0 : Ctx := ⟨parsePath "/home/u", parsePath "/home/u"⟩

/-- A concrete managed environment location `/um/envs/demo`. -/
def demoLoc : FsPath := ⟨true, ["um", "envs", "demo"]⟩

/-- A concrete valid entry named `demo`. -/
def demoEntry : EnvironmentEntry := ⟨"demo", demoLoc, none, none, false, []⟩

/-- A concrete registry file path `/um/registry.json`. -/
def regPath0 : FsPath := parsePath "/um/registry.json"

/-! ### Helper lemmas -/

theorem tmpName_ne (base nonce : String) : base ++ ".tmp-" ++ nonce ≠ base := by
  intro h
  have hlen := congrArg String.length h
  have h5 : (".tmp-" : String).length = 5 := rfl
  simp [String.length_append, h5] at hlen
  omega

theorem tmpName_inj (base : String) {n1 n2 : String}
    (h : base ++ ".tmp-" ++ n1 = base ++ ".tmp-" ++ n2) : n1 = n2 := by
  have hd := congrArg String.data h
  simp [String.data_append] at hd
  cases n1
  cases n2
  exact congrArg String.mk hd

theorem tmpPathOf_ne (regPath : FsPath) (nonce : String) :
    tmpPathOf regPath nonce ≠ regPath := by
  intro h
  have hp := congrArg FsPath.parts h
  cases hq : regPath.parts with
  | nil =>
    rw [hq] at hp
    simp [tmpPathOf, hq] at hp
  | cons a l =>
    have hne : regPath.parts ≠ [] := by rw [hq]; simp
    simp only [tmpPathOf] at hp
    have hlast := congrArg List.getLast? hp
    rw [List.getLast?_concat, List.getLast?_eq_getLast _ hne] at hlast
    have h1 : lastNameOf regPath ++ ".tmp-" ++ nonce = regPath.parts.getLast hne := by
      exact Option.some.inj hlast
    have h2 : lastNameOf regPath = regPath.parts.getLast hne := by
      simp [lastNameOf, List.getLast?_eq_getLast regPath.parts hne]
    rw [h2] at h1
    exact tmpName_ne _ _ h1

theorem eraseFirstPath_cons_self (p : FsPath) (l : List FsPath) :
    eraseFirstPath (p :: l) p = l := by
  simp [eraseFirstPath]

theorem exbind_ok_iff {α β : Type} (x : Except UvmErr α) (f : α → Except UvmErr β)
    (b : β) : exbind x f = .ok b ↔ ∃ a, x = .ok a ∧ f a = .ok b := by
  cases x <;> simp

/-! ### C5 — atomic persistence writes -/

/-- C5: every persistence write goes to a uniquely-named temporary sibling of
the registry file (same directory, never the target itself, distinct nonces
give distinct names); on a fault at any write step the error is re-raised,
the temporary file is gone and the previous registry file is untouched; on
success the target holds exactly the new payload — no partial state is ever
visible at the target path. -/
theorem write_payload_atomic_spec (regPath : FsPath) (nonce nonce2 : String)
    (fault : WriteFault) (payload : Payload) (w : World) :
    (tmpPathOf regPath nonce).parts.dropLast = regPath.parts.dropLast ∧
    (tmpPathOf regPath nonce).absolute = regPath.absolute ∧
    tmpPathOf regPath nonce ≠ regPath ∧
    (nonce ≠ nonce2 → tmpPathOf regPath nonce ≠ tmpPathOf regPath nonce2) ∧
    (fault ≠ .noFault →
      (writePayload regPath nonce fault payload w).1 = .error .ioError ∧
      (writePayload regPath nonce fault payload w).2.1.registryFile = w.registryFile ∧
      (writePayload regPath nonce fault payload w).2.1.tmpFiles = w.tmpFiles) ∧
    (fault = .noFault →
      (writePayload regPath nonce fault payload w).1 = .ok () ∧
      (writePayload regPath nonce fault payload w).2.1.registryFile = some payload ∧
      (writePayload regPath nonce fault payload w).2.1.tmpFiles = w.tmpFiles) := by
  refine ⟨?_, rfl, tmpPathOf_ne regPath nonce, ?_, ?_, ?_⟩
  · simp [tmpPathOf]
  · intro hne heq
    have hp := congrArg FsPath.parts heq
    simp only [tmpPathOf] at hp
    have := List.append_cancel_left hp
    have h1 : lastNameOf regPath ++ ".tmp-" ++ nonce = lastNameOf regPath ++ ".tmp-" ++ nonce2 := by
      simpa using this
    exact hne (tmpName_inj _ h1)
  · intro hf
    cases fault with
    | noFault => exact absurd rfl hf
    | dumpFails =>
      refine ⟨rfl, rfl, ?_⟩
      simp [writePayload, eraseFirstPath_cons_self]
    | renameFails =>
      refine ⟨rfl, rfl, ?_⟩
      simp [writePayload, eraseFirstPath_cons_self]
  · intro hf
    subst hf
    refine ⟨rfl, rfl, ?_⟩
    simp [writePayload, eraseFirstPath_cons_self]

/-- Witness for C5 at a concrete failing write. -/
theorem write_payload_atomic_spec_witness :
    (writePayload regPath0 "aa" .renameFails ⟨1, []⟩ ⟨some ⟨1, []⟩, []⟩).1 = .error .ioError ∧
    (writePayload regPath0 "aa" .renameFails ⟨1, []⟩ ⟨some ⟨1, []⟩, []⟩).2.1.registryFile =
      some ⟨1, []⟩ := by
  have h := write_payload_atomic_spec regPath0 "aa" "bb" .renameFails ⟨1, []⟩
    ⟨some ⟨1, []⟩, []⟩
  exact ⟨(h.2.2.2.2.1 (by decide)).1, (h.2.2.2.2.1 (by decide)).2.1⟩

theorem ensureLoadedFn_loaded (ctx : Ctx) (fs : List FsPath) (w : World)
    (st : RegistryState) (hl : st.loaded = true) :
    ensureLoadedFn ctx fs w st = (.ok (), st, []) := by
  simp [ensureLoadedFn, hl]

theorem writePayload_fault (regPath : FsPath) (nonce : String) (fault : WriteFault)
    (payload : Payload) (w : World) (hf : fault ≠ .noFault) :
    writePayload regPath nonce fault payload w =
      (.error .ioError, w, [.lockAcquire, .lockRelease]) := by
  cases fault with
  | noFault => exact absurd rfl hf
  | dumpFails => simp [writePayload, eraseFirstPath_cons_self]
  | renameFails => simp [writePayload, eraseFirstPath_cons_self]

theorem writePayload_ok (regPath : FsPath) (nonce : String) (payload : Payload) (w : World) :
    writePayload regPath nonce .noFault payload w =
      (.ok (), ⟨some payload, w.tmpFiles⟩, [.lockAcquire, .diskWrite, .lockRelease]) := by
  simp [writePayload, eraseFirstPath_cons_self]

/-! ### C9 — the in-memory map is mutated before the write -/

/-- C9: for each mutating operation (`add`, `update`, `remove`, `sync`) run
against a loaded registry with a failing persistence write, the operation
raises the write error, yet the in-memory map already holds the mutation
(insertion, replacement or deletion) and the on-disk world is unchanged —
memory and disk diverge until a reload. -/
theorem mutate_before_write_spec (ctx : Ctx) (fs : List FsPath)
    (uvmHomeVar : Option String) (regPath : FsPath) (nonce : String)
    (fault : WriteFault) (w : World) (st : RegistryState)
    (entry : EnvironmentEntry) (name : String)
    (hl : st.loaded = true) (hf : fault ≠ .noFault) :
    ((addOp ctx fs uvmHomeVar regPath nonce fault w st entry true false).res =
        .error .ioError ∧
      (addOp ctx fs uvmHomeVar regPath nonce fault w st entry true false).st.entries =
        alInsert st.entries entry.name entry ∧
      (addOp ctx fs uvmHomeVar regPath nonce fault w st entry true false).w = w) ∧
    (alMem st.entries entry.name = true →
      (updateOp ctx fs regPath nonce fault w st entry).res = .error .ioError ∧
      (updateOp ctx fs regPath nonce fault w st entry).st.entries =
        alInsert st.entries entry.name entry ∧
      (updateOp ctx fs regPath nonce fault w st entry).w = w) ∧
    (alMem st.entries name = true →
      (removeOp ctx fs regPath nonce fault w st name).res = .error .ioError ∧
      (removeOp ctx fs regPath nonce fault w st name).st.entries =
        alRemove st.entries name ∧
      (removeOp ctx fs regPath nonce fault w st name).w = w) ∧
    ((((st.entries.filter (fun kv => !existsOnFs fs kv.2.location)).map Prod.fst).isEmpty
        = false) →
      (syncOp ctx fs regPath nonce fault w st).res = .error .ioError ∧
      (syncOp ctx fs regPath nonce fault w st).st.entries =
        ((st.entries.filter (fun kv => !existsOnFs fs kv.2.location)).map Prod.fst).foldl
          alRemove st.entries ∧
      (syncOp ctx fs regPath nonce fault w st).w = w) := by
  have hload := ensureLoadedFn_loaded ctx fs w st hl
  refine ⟨?_, ?_, ?_, ?_⟩
  · simp [addOp, hload, writePayload_fault _ _ _ _ _ hf]
  · intro hmem
    simp [updateOp, hload, hmem, writePayload_fault _ _ _ _ _ hf]
  · intro hmem
    simp [removeOp, hload, hmem, writePayload_fault _ _ _ _ _ hf]
  · intro hstale
    simp [syncOp, hload, hstale, writePayload_fault _ _ _ _ _ hf]

/-- Witness for C9: a loaded one-entry registry, a failing write; `add` keeps
the insertion in memory and `sync` keeps the deletion in memory, while the
registry file still holds the old payload. -/
theorem mutate_before_write_spec_witness :
    (addOp ctx0 [] (some "/um") regPath0 "n0" .dumpFails ⟨some ⟨1, []⟩, []⟩
        ⟨[], true⟩ demoEntry true false).st.entries = [("demo", demoEntry)] ∧
    (addOp ctx0 [] (some "/um") regPath0 "n0" .dumpFails ⟨some ⟨1, []⟩, []⟩
        ⟨[], true⟩ demoEntry true false).w = ⟨some ⟨1, []⟩, []⟩ ∧
    (syncOp ctx0 [] regPath0 "n0" .dumpFails ⟨some ⟨1, []⟩, []⟩
        ⟨[("demo", demoEntry)], true⟩).st.entries = [] := by
  have h := mutate_before_write_spec ctx0 [] (some "/um") regPath0 "n0" .dumpFails
    ⟨some ⟨1, []⟩, []⟩ ⟨[], true⟩ demoEntry "demo" rfl (by decide)
  have h2 := mutate_before_write_spec ctx0 [] (some "/um") regPath0 "n0" .dumpFails
    ⟨some ⟨1, []⟩, []⟩ ⟨[("demo", demoEntry)], true⟩ demoEntry "demo" rfl (by decide)
  refine ⟨?_, h.1.2.2, ?_⟩
  · rw [h.1.2.1]; decide
  · rw [(h2.2.2.2 (by decide)).2.1]; decide

/-! ### C4 — duplicate handling and the managed-root precedence of `add` -/

/-- C4: when the managed-root check of `add(require_managed=True)` fails on a
location outside the managed root it raises `OutsideManagedRoot`, and any
failure of that check aborts `add` before the duplicate check or any
mutation, for any state and either `overwrite` value; with
`overwrite=False` a present name raises `EntryAlreadyExists` and leaves the
map and the disk untouched; with `overwrite=True` the insertion replaces the
entry under its name and the full map is persisted. -/
theorem add_duplicate_and_managed_spec (ctx : Ctx) (fs : List FsPath)
    (uvmHomeVar : Option String) (regPath : FsPath) (nonce : String)
    (fault : WriteFault) (w : World) (st : RegistryState)
    (entry : EnvironmentEntry) (er : UvmErr) (p root : FsPath) :
    (validateSafePath ctx true entry.location = .ok p →
      getManagedEnvRoot ctx uvmHomeVar = .ok root →
      relativeToOk root p = false →
      ensureManagedEnvPath ctx uvmHomeVar entry.location = .error .outsideManagedRoot) ∧
    (∀ ov, ensureManagedEnvPath ctx uvmHomeVar entry.location = .error er →
      addOp ctx fs uvmHomeVar regPath nonce fault w st entry ov true =
        ⟨.error er, st, w, []⟩) ∧
    (st.loaded = true → alMem st.entries entry.name = true →
      addOp ctx fs uvmHomeVar regPath nonce fault w st entry false false =
        ⟨.error .entryAlreadyExists, st, w, []⟩) ∧
    (st.loaded = true →
      addOp ctx fs uvmHomeVar regPath nonce .noFault w st entry true false =
        ⟨.ok (), ⟨alInsert st.entries entry.name entry, true⟩,
          ⟨some (serialiseEntries (alInsert st.entries entry.name entry)), w.tmpFiles⟩,
          [.lockAcquire, .diskWrite, .lockRelease]⟩) := by
  refine ⟨?_, ?_, ?_, ?_⟩
  · intro hv hr hout
    simp [ensureManagedEnvPath, hv, hr, hout]
  · intro ov hm
    simp [addOp, hm]
  · intro hl hmem
    simp [addOp, ensureLoadedFn_loaded ctx fs w st hl, hmem]
  · intro hl
    simp [addOp, ensureLoadedFn_loaded ctx fs w st hl, writePayload_ok, hl]

/-- Witness for C4: a loaded registry already holding `demo`; the duplicate
add fails, the overwriting add succeeds and persists, and an outside-root
add fails with `OutsideManagedRoot` even though the name is present. -/
theorem add_duplicate_and_managed_spec_witness :
    addOp ctx0 [] (some "/um") regPath0 "n0" .noFault ⟨none, []⟩
        ⟨[("demo", demoEntry)], true⟩ demoEntry false false =
      ⟨.error .entryAlreadyExists, ⟨[("demo", demoEntry)], true⟩, ⟨none, []⟩, []⟩ ∧
    addOp ctx0 [] (some "/um") regPath0 "n0" .noFault ⟨none, []⟩
        ⟨[("demo", demoEntry)], true⟩ demoEntry true false =
      ⟨.ok (), ⟨[("demo", demoEntry)], true⟩,
        ⟨some (serialiseEntries [("demo", demoEntry)]), []⟩,
        [.lockAcquire, .diskWrite, .lockRelease]⟩ ∧
    addOp ctx0 [] (some "/um") regPath0 "n0" .noFault ⟨none, []⟩
        ⟨[("demo", ⟨"demo", ⟨true, ["elsewhere"]⟩, none, none, true, []⟩)], true⟩
        ⟨"demo", ⟨true, ["elsewhere"]⟩, none, none, true, []⟩ false true =
      ⟨.error .outsideManagedRoot,
        ⟨[("demo", ⟨"demo", ⟨true, ["elsewhere"]⟩, none, none, true, []⟩)], true⟩,
        ⟨none, []⟩, []⟩ := by
  have h1 := add_duplicate_and_managed_spec ctx0 [] (some "/um") regPath0 "n0" .noFault
    ⟨none, []⟩ ⟨[("demo", demoEntry)], true⟩ demoEntry .outsideManagedRoot demoLoc demoLoc
  have h2 := add_duplicate_and_managed_spec ctx0 [] (some "/um") regPath0 "n0" .noFault
    ⟨none, []⟩ ⟨[("demo", ⟨"demo", ⟨true, ["elsewhere"]⟩, none, none, true, []⟩)], true⟩
    ⟨"demo", ⟨true, ["elsewhere"]⟩, none, none, true, []⟩ .outsideManagedRoot demoLoc demoLoc
  refine ⟨h1.2.2.1 rfl (by decide), ?_, h2.2.1 false (by decide)⟩
  have h3 := h1.2.2.2 rfl
  rw [h3]
  decide

/-! ### C3 — sync removes exactly the stale entries -/

theorem alRemove_cons_ne (k : String × EnvironmentEntry)
    (m : List (String × EnvironmentEntry)) (n : String) (h : k.1 ≠ n) :
    alRemove (k :: m) n = k :: alRemove m n := by
  cases k
  simp [alRemove, h]

theorem foldl_alRemove_cons (ns : List String) (k : String × EnvironmentEntry)
    (h : k.1 ∉ ns) :
    ∀ m, ns.foldl alRemove (k :: m) = k :: ns.foldl alRemove m := by
  induction ns with
  | nil => intro m; rfl
  | cons n ns ih =>
    intro m
    have hne : k.1 ≠ n := fun he => h (by simp [he])
    simp only [List.foldl_cons]
    rw [alRemove_cons_ne k m n hne]
    exact ih (fun hm => h (by simp [hm])) (alRemove m n)

theorem foldl_alRemove_filter (p : String × EnvironmentEntry → Bool) :
    ∀ m : List (String × EnvironmentEntry), (m.map Prod.fst).Nodup →
    ((m.filter (fun kv => !p kv)).map Prod.fst).foldl alRemove m = m.filter p := by
  intro m
  induction m with
  | nil => intro _; rfl
  | cons kv rest ih =>
    intro hnd
    have hnotin : kv.1 ∉ rest.map Prod.fst := (List.nodup_cons.mp (by simpa using hnd)).1
    have hnd2 : (rest.map Prod.fst).Nodup := (List.nodup_cons.mp (by simpa using hnd)).2
    cases hp : p kv with
    | true =>
      have hfil : (kv :: rest).filter (fun x => !p x) = rest.filter (fun x => !p x) := by
        simp [List.filter_cons, hp]
      have hfil2 : (kv :: rest).filter p = kv :: rest.filter p := by
        simp [List.filter_cons, hp]
      rw [hfil, hfil2]
      have hnot : kv.1 ∉ (rest.filter (fun x => !p x)).map Prod.fst := by
        intro hmem
        apply hnotin
        rcases List.mem_map.mp hmem with ⟨a, ha, hae⟩
        exact List.mem_map.mpr ⟨a, List.mem_of_mem_filter ha, hae⟩
      rw [foldl_alRemove_cons _ kv hnot]
      rw [ih hnd2]
    | false =>
      have hfil : (kv :: rest).filter (fun x => !p x) = kv :: rest.filter (fun x => !p x) := by
        simp [List.filter_cons, hp]
      have hfil2 : (kv :: rest).filter p = rest.filter p := by
        simp [List.filter_cons, hp]
      rw [hfil, hfil2]
      have hhead : alRemove (kv :: rest) kv.1 = rest := by
        cases kv
        simp [alRemove]
      simp only [List.map_cons, List.foldl_cons, hhead]
      exact ih hnd2

/-- C3: against a loaded registry (with the unique keys of a dict), `sync`
returns exactly the names of the entries whose location does not exist, in
the stable order of the pre-sync map; the remaining map is exactly the
existing entries; when nothing is stale there is no disk write and no lock
event; and an immediately repeated `sync` returns the empty list. -/
theorem sync_removes_stale_spec (ctx : Ctx) (fs : List FsPath) (regPath : FsPath)
    (nonce : String) (w : World) (st : RegistryState)
    (hl : st.loaded = true) (hnd : (st.entries.map Prod.fst).Nodup) :
    (syncOp ctx fs regPath nonce .noFault w st).res =
      .ok ((st.entries.filter (fun kv => !existsOnFs fs kv.2.location)).map Prod.fst) ∧
    (syncOp ctx fs regPath nonce .noFault w st).st.entries =
      st.entries.filter (fun kv => existsOnFs fs kv.2.location) ∧
    ((st.entries.filter (fun kv => !existsOnFs fs kv.2.location)).map Prod.fst = [] →
      (syncOp ctx fs regPath nonce .noFault w st).w = w ∧
      (syncOp ctx fs regPath nonce .noFault w st).evs = []) ∧
    (syncOp ctx fs regPath nonce .noFault
        (syncOp ctx fs regPath nonce .noFault w st).w
        (syncOp ctx fs regPath nonce .noFault w st).st).res = .ok [] := by
  have hload := ensureLoadedFn_loaded ctx fs w st hl
  by_cases hst :
      (st.entries.filter (fun kv => !existsOnFs fs kv.2.location)).map Prod.fst = []
  · have hfe : st.entries.filter (fun kv => !existsOnFs fs kv.2.location) = [] :=
      List.map_eq_nil_iff.mp hst
    have hall : ∀ kv ∈ st.entries, existsOnFs fs kv.2.location = true := by
      intro kv hkv
      have := List.filter_eq_nil_iff.mp hfe kv hkv
      simpa using this
    have hkeep : st.entries.filter (fun kv => existsOnFs fs kv.2.location) = st.entries :=
      List.filter_eq_self.mpr hall
    have hout : syncOp ctx fs regPath nonce .noFault w st = ⟨.ok [], st, w, []⟩ := by
      simp [syncOp, hload, hst]
    rw [hout]
    refine ⟨by rw [hst], by rw [hkeep], fun _ => ⟨rfl, rfl⟩, ?_⟩
    show (syncOp ctx fs regPath nonce .noFault w st).res = .ok []
    rw [hout]
  · have hse :
        ((st.entries.filter (fun kv => !existsOnFs fs kv.2.location)).map Prod.fst).isEmpty
          = false := by
      cases hq : (st.entries.filter (fun kv => !existsOnFs fs kv.2.location)).map Prod.fst with
      | nil => exact absurd hq hst
      | cons a l => rfl
    have hrem := foldl_alRemove_filter (fun kv => existsOnFs fs kv.2.location) st.entries hnd
    have hout : syncOp ctx fs regPath nonce .noFault w st =
        ⟨.ok ((st.entries.filter (fun kv => !existsOnFs fs kv.2.location)).map Prod.fst),
          ⟨st.entries.filter (fun kv => existsOnFs fs kv.2.location), true⟩,
          ⟨some (serialiseEntries
            (((st.entries.filter (fun kv => !existsOnFs fs kv.2.location)).map
              Prod.fst).foldl alRemove st.entries)), w.tmpFiles⟩,
          [.lockAcquire, .diskWrite, .lockRelease]⟩ := by
      simp only [syncOp, hload, hse, Bool.false_eq_true, if_false, writePayload_ok, hl]
      simp [hrem]
    rw [hout]
    have hstale2 :
        ((st.entries.filter (fun kv => existsOnFs fs kv.2.location)).filter
          (fun kv => !existsOnFs fs kv.2.location)) = [] := by
      rw [List.filter_filter]
      have : ∀ kv ∈ st.entries,
          (!existsOnFs fs kv.2.location && existsOnFs fs kv.2.location) = false := by
        intro kv _
        exact Bool.not_and_self _
      calc st.entries.filter
            (fun kv => !existsOnFs fs kv.2.location && existsOnFs fs kv.2.location)
          = st.entries.filter (fun _ => false) := List.filter_congr this
        _ = [] := List.filter_false st.entries
    refine ⟨rfl, rfl, fun hc => absurd hc hst, ?_⟩
    simp [syncOp, ensureLoadedFn, hstale2]

/-- Witness for C3: a registry with one live and one stale entry; `sync`
returns exactly `["gone"]`, keeps `demo`, and a second `sync` returns `[]`. -/
theorem sync_removes_stale_spec_witness :
    (syncOp ctx0 [demoLoc] regPath0 "n0" .noFault ⟨none, []⟩
      ⟨[("demo", demoEntry),
        ("gone", ⟨"gone", ⟨true, ["um", "envs", "gone"]⟩, none, none, false, []⟩)],
        true⟩).res = .ok ["gone"] ∧
    (syncOp ctx0 [demoLoc] regPath0 "n0" .noFault ⟨none, []⟩
      ⟨[("demo", demoEntry),
        ("gone", ⟨"gone", ⟨true, ["um", "envs", "gone"]⟩, none, none, false, []⟩)],
        true⟩).st.entries = [("demo", demoEntry)] ∧
    (syncOp ctx0 [demoLoc] regPath0 "n0" .noFault
      (syncOp ctx0 [demoLoc] regPath0 "n0" .noFault ⟨none, []⟩
        ⟨[("demo", demoEntry),
          ("gone", ⟨"gone", ⟨true, ["um", "envs", "gone"]⟩, none, none, false, []⟩)],
          true⟩).w
      (syncOp ctx0 [demoLoc] regPath0 "n0" .noFault ⟨none, []⟩
        ⟨[("demo", demoEntry),
          ("gone", ⟨"gone", ⟨true, ["um", "envs", "gone"]⟩, none, none, false, []⟩)],
          true⟩).st).res = .ok [] := by
  have h := sync_removes_stale_spec ctx0 [demoLoc] regPath0 "n0" ⟨none, []⟩
    ⟨[("demo", demoEntry),
      ("gone", ⟨"gone", ⟨true, ["um", "envs", "gone"]⟩, none, none, false, []⟩)],
      true⟩ rfl (by decide)
  refine ⟨?_, ?_, h.2.2.2⟩
  · rw [h.1]; decide
  · rw [h.2.1]; decide

/-! ### C2 — the actual persistence protocol -/

theorem writePayload_no_read (regPath : FsPath) (nonce : String) (fault : WriteFault)
    (payload : Payload) (w : World) :
    Ev.diskRead ∉ (writePayload regPath nonce fault payload w).2.2 := by
  cases fault <;> simp [writePayload]

/-- Counterexample to C2 as stated: an already-loaded registry whose backing
file is present; the persisting `add` performs its write under the file lock
without any read of the on-disk payload. -/
theorem persistence_write_without_read :
    (addOp ctx0 [] (some "/um") regPath0 "n0" .noFault ⟨some ⟨1, []⟩, []⟩ ⟨[], true⟩
      demoEntry true false).res = .ok () ∧
    (addOp ctx0 [] (some "/um") regPath0 "n0" .noFault ⟨some ⟨1, []⟩, []⟩ ⟨[], true⟩
      demoEntry true false).evs = [.lockAcquire, .diskWrite, .lockRelease] ∧
    Ev.diskRead ∉ (addOp ctx0 [] (some "/um") regPath0 "n0" .noFault ⟨some ⟨1, []⟩, []⟩
      ⟨[], true⟩ demoEntry true false).evs := by
  refine ⟨by decide, by decide, by decide⟩

/-- C2 (amended): a mutating operation serialises the in-memory map and
writes it under its own file-lock acquisition; the on-disk payload is read
only by the lazy initial load — when the registry is not yet loaded and the
file exists the load reads it under a separate file-lock acquisition before
the mutation and the write, an absent file is treated as an empty registry
(loaded without touching the lock), and an already-loaded registry is never
re-read by `add`, `update`, `remove` or `sync`. -/
theorem persistence_protocol_amended (ctx : Ctx) (fs : List FsPath)
    (uvmHomeVar : Option String) (regPath : FsPath) (nonce : String)
    (fault : WriteFault) (w : World) (st : RegistryState)
    (entry : EnvironmentEntry) (payload : Payload)
    (m : List (String × EnvironmentEntry)) :
    (st.loaded = true →
      (addOp ctx fs uvmHomeVar regPath nonce .noFault w st entry true false).evs =
        [.lockAcquire, .diskWrite, .lockRelease]) ∧
    (st.loaded = false → w.registryFile = some payload →
      deserialiseRecords ctx fs payload = .ok m →
      (addOp ctx fs uvmHomeVar regPath nonce .noFault w st entry true false).evs =
        [.lockAcquire, .diskRead, .lockRelease,
          .lockAcquire, .diskWrite, .lockRelease] ∧
      (addOp ctx fs uvmHomeVar regPath nonce .noFault w st entry true false).st.entries =
        alInsert m entry.name entry) ∧
    (st.loaded = false → w.registryFile = none →
      (addOp ctx fs uvmHomeVar regPath nonce .noFault w st entry true false).evs =
        [.lockAcquire, .diskWrite, .lockRelease] ∧
      (addOp ctx fs uvmHomeVar regPath nonce .noFault w st entry true false).st.entries =
        alInsert [] entry.name entry) ∧
    (st.loaded = true →
      Ev.diskRead ∉ (updateOp ctx fs regPath nonce fault w st entry).evs ∧
      Ev.diskRead ∉ (removeOp ctx fs regPath nonce fault w st entry.name).evs ∧
      Ev.diskRead ∉ (syncOp ctx fs regPath nonce fault w st).evs) := by
  refine ⟨?_, ?_, ?_, ?_⟩
  · intro hl
    simp [addOp, ensureLoadedFn_loaded ctx fs w st hl, writePayload_ok]
  · intro hl hw hdes
    have hload : ensureLoadedFn ctx fs w st =
        (.ok (), ⟨m, true⟩, [.lockAcquire, .diskRead, .lockRelease]) := by
      simp [ensureLoadedFn, hl, hw, hdes]
    simp [addOp, hload, writePayload_ok]
  · intro hl hw
    have hload : ensureLoadedFn ctx fs w st = (.ok (), ⟨[], true⟩, []) := by
      simp [ensureLoadedFn, hl, hw]
    simp [addOp, hload, writePayload_ok]
  · intro hl
    have hload := ensureLoadedFn_loaded ctx fs w st hl
    refine ⟨?_, ?_, ?_⟩
    · by_cases hmem : alMem st.entries entry.name = true
      · have hnr := writePayload_no_read regPath nonce fault
          (serialiseEntries (alInsert st.entries entry.name entry)) w
        rcases hwp : writePayload regPath nonce fault
            (serialiseEntries (alInsert st.entries entry.name entry)) w with ⟨res, w2, evs2⟩
        rw [hwp] at hnr
        simpa [updateOp, hload, hmem, hwp] using hnr
      · simp [updateOp, hload, hmem]
    · by_cases hmem : alMem st.entries entry.name = true
      · have hnr := writePayload_no_read regPath nonce fault
          (serialiseEntries (alRemove st.entries entry.name)) w
        rcases hwp : writePayload regPath nonce fault
            (serialiseEntries (alRemove st.entries entry.name)) w with ⟨res, w2, evs2⟩
        rw [hwp] at hnr
        rcases res with e | v <;> simpa [removeOp, hload, hmem, hwp] using hnr
      · simp [removeOp, hload, hmem]
    · by_cases hse :
          ((st.entries.filter (fun kv => !existsOnFs fs kv.2.location)).map
            Prod.fst).isEmpty = true
      · simp [syncOp, hload, hse]
      · have hse2 :
            ((st.entries.filter (fun kv => !existsOnFs fs kv.2.location)).map
              Prod.fst).isEmpty = false := by
          cases hq : ((st.entries.filter (fun kv => !existsOnFs fs kv.2.location)).map
              Prod.fst).isEmpty
          · rfl
          · exact absurd hq hse
        have hnr := writePayload_no_read regPath nonce fault
          (serialiseEntries
            (((st.entries.filter (fun kv => !existsOnFs fs kv.2.location)).map
              Prod.fst).foldl alRemove st.entries)) w
        rcases hwp : writePayload regPath nonce fault
            (serialiseEntries
              (((st.entries.filter (fun kv => !existsOnFs fs kv.2.location)).map
                Prod.fst).foldl alRemove st.entries)) w with ⟨res, w2, evs2⟩
        rw [hwp] at hnr
        rcases res with e | v <;> simpa [syncOp, hload, hse2, hwp] using hnr

/-- Witness for C2 (amended): the first mutating access against an existing
file reads the payload under the lock and then writes under a second lock
acquisition; an absent file is loaded as the empty registry. -/
theorem persistence_protocol_amended_witness :
    (addOp ctx0 [] (some "/um") regPath0 "n0" .noFault
      ⟨some ⟨1, []⟩, []⟩ ⟨[], false⟩ demoEntry true false).evs =
      [.lockAcquire, .diskRead, .lockRelease,
        .lockAcquire, .diskWrite, .lockRelease] ∧
    (addOp ctx0 [] (some "/um") regPath0 "n0" .noFault
      ⟨none, []⟩ ⟨[], false⟩ demoEntry true false).st.entries =
      [("demo", demoEntry)] := by
  have h1 := persistence_protocol_amended ctx0 [] (some "/um") regPath0 "n0" .noFault
    ⟨some ⟨1, []⟩, []⟩ ⟨[], false⟩ demoEntry ⟨1, []⟩ []
  have h2 := persistence_protocol_amended ctx0 [] (some "/um") regPath0 "n0" .noFault
    ⟨none, []⟩ ⟨[], false⟩ demoEntry ⟨1, []⟩ []
  refine ⟨(h1.2.1 rfl rfl (by decide)).1, ?_⟩
  rw [(h2.2.2.1 rfl rfl).2]
  decide

/-! ### C10 — map keys always equal the `name` of the entry -/

/-- Every key of the map equals the `name` of the entry it maps to. -/
def keysMatchB (m : List (String × EnvironmentEntry)) : Bool :=
  m.all (fun kv => decide (kv.1 = kv.2.name))

theorem keysMatch_alInsert (m : List (String × EnvironmentEntry))
    (k : String) (v : EnvironmentEntry) (hm : keysMatchB m = true) (hk : k = v.name) :
    keysMatchB (alInsert m k v) = true := by
  induction m with
  | nil => simp [alInsert, keysMatchB, hk]
  | cons kv rest ih =>
    rcases kv with ⟨k0, v0⟩
    simp only [keysMatchB, List.all_cons, Bool.and_eq_true] at hm
    by_cases he : k0 = k
    · have hstep : alInsert ((k0, v0) :: rest) k v = (k0, v) :: rest := by
        simp [alInsert, he]
      rw [hstep]
      simp only [keysMatchB, List.all_cons, Bool.and_eq_true]
      exact ⟨by simp [he, hk], hm.2⟩
    · have hstep : alInsert ((k0, v0) :: rest) k v = (k0, v0) :: alInsert rest k v := by
        simp [alInsert, he]
      rw [hstep]
      simp only [keysMatchB, List.all_cons, Bool.and_eq_true]
      exact ⟨hm.1, ih hm.2⟩

theorem keysMatch_alRemove (m : List (String × EnvironmentEntry)) (k : String)
    (hm : keysMatchB m = true) : keysMatchB (alRemove m k) = true := by
  induction m with
  | nil => simpa [alRemove] using hm
  | cons kv rest ih =>
    rcases kv with ⟨k0, v0⟩
    simp only [keysMatchB, List.all_cons, Bool.and_eq_true] at hm
    by_cases he : k0 = k
    · have hstep : alRemove ((k0, v0) :: rest) k = rest := by simp [alRemove, he]
      rw [hstep]
      exact hm.2
    · have hstep : alRemove ((k0, v0) :: rest) k = (k0, v0) :: alRemove rest k := by
        simp [alRemove, he]
      rw [hstep]
      simp only [keysMatchB, List.all_cons, Bool.and_eq_true]
      exact ⟨hm.1, ih hm.2⟩

theorem keysMatch_foldl_alRemove (ns : List String) :
    ∀ m, keysMatchB m = true → keysMatchB (ns.foldl alRemove m) = true := by
  induction ns with
  | nil => intro m hm; exact hm
  | cons n ns ih =>
    intro m hm
    exact ih (alRemove m n) (keysMatch_alRemove m n hm)

theorem mkEntry_name (ctx : Ctx) (fs : List FsPath) (name : String) (loc : FsPath)
    (pv : Option JVal) (dt : Option DT) (ipl : Bool) (mf : MetaField)
    (e : EnvironmentEntry) (h : mkEntry ctx fs name loc pv dt ipl mf = .ok e) :
    e.name = pyStrip name := by
  by_cases hn : pyStrip name = ""
  · simp [mkEntry, hn] at h
  · simp only [mkEntry] at h
    rw [if_neg hn] at h
    obtain ⟨loc2, hnorm, h⟩ := (exbind_ok_iff _ _ _).mp h
    obtain ⟨u, hsafe, h⟩ := (exbind_ok_iff _ _ _).mp h
    obtain ⟨md, hmd, h⟩ := (exbind_ok_iff _ _ _).mp h
    injection h with h2
    subst h2
    rfl

theorem fromRecord_name (ctx : Ctx) (fs : List FsPath) (r : Record) (n : String)
    (e : EnvironmentEntry) (hn : r.name = some n) (h : fromRecord ctx fs r = .ok e) :
    e.name = pyStrip n := by
  unfold fromRecord at h
  rw [hn] at h
  rcases hloc : r.location with _ | loc
  · rw [hloc] at h; simp at h
  · rw [hloc] at h
    simp only [] at h
    obtain ⟨locN, hnorm, h⟩ := (exbind_ok_iff _ _ _).mp h
    obtain ⟨md, hmd, h⟩ := (exbind_ok_iff _ _ _).mp h
    exact mkEntry_name _ _ _ _ _ _ _ _ _ h

theorem keysMatch_deserialiseRecLoop (ctx : Ctx) (fs : List FsPath) :
    ∀ (l : List (String × Record)) (acc m : List (String × EnvironmentEntry)),
    keysMatchB acc = true → deserialiseRecLoop ctx fs l acc = .ok m →
    keysMatchB m = true := by
  intro l
  induction l with
  | nil =>
    intro acc m hacc h
    injection h with h2
    subst h2
    exact hacc
  | cons kr rest ih =>
    intro acc m hacc h
    rcases kr with ⟨k, r⟩
    simp only [deserialiseRecLoop] at h
    obtain ⟨e, hfr, h⟩ := (exbind_ok_iff _ _ _).mp h
    exact ih _ _ (keysMatch_alInsert acc _ _ hacc rfl) h

theorem keysMatch_deserialiseRecords (ctx : Ctx) (fs : List FsPath) (p : Payload)
    (m : List (String × EnvironmentEntry)) (h : deserialiseRecords ctx fs p = .ok m) :
    keysMatchB m = true := by
  unfold deserialiseRecords at h
  split at h
  · simp at h
  · exact keysMatch_deserialiseRecLoop ctx fs _ [] m rfl h

theorem keysMatch_deserialiseLoop (ctx : Ctx) (fs : List FsPath) :
    ∀ (l : List (String × Json)) (acc m : List (String × EnvironmentEntry)),
    keysMatchB acc = true → deserialiseLoop ctx fs l acc = .ok m →
    keysMatchB m = true := by
  intro l
  induction l with
  | nil =>
    intro acc m hacc h
    injection h with h2
    subst h2
    exact hacc
  | cons kr rest ih =>
    intro acc m hacc h
    rcases kr with ⟨k, pj⟩
    simp only [deserialiseLoop] at h
    split at h
    · obtain ⟨e, hfr, h⟩ := (exbind_ok_iff _ _ _).mp h
      exact ih _ _ (keysMatch_alInsert acc _ _ hacc rfl) h
    · simp at h

theorem keysMatch_readPayload (ctx : Ctx) (fs : List FsPath) (ex : Bool)
    (content : FileJson) (m : List (String × EnvironmentEntry))
    (h : readPayload ctx fs ex content = .ok m) : keysMatchB m = true := by
  unfold readPayload at h
  split at h
  · injection h with h2; subst h2; rfl
  · split at h
    · simp at h
    · unfold deserialiseJson at h
      obtain ⟨v, hv, h⟩ := (exbind_ok_iff _ _ _).mp h
      split at h
      · simp at h
      · split at h
        · exact keysMatch_deserialiseLoop ctx fs _ [] m rfl h
        · simp at h
    · simp at h

theorem keysMatch_ensureLoaded (ctx : Ctx) (fs : List FsPath) (w : World)
    (st : RegistryState) (hk : keysMatchB st.entries = true) :
    keysMatchB (ensureLoadedFn ctx fs w st).2.1.entries = true := by
  unfold ensureLoadedFn
  by_cases hl : st.loaded = true
  · simpa [hl] using hk
  · rcases hw : w.registryFile with _ | payload
    · simp [hl, hw, keysMatchB]
    · rcases hdes : deserialiseRecords ctx fs payload with e | entries
      · simpa [hl, hw, hdes] using hk
      · have hres := keysMatch_deserialiseRecords ctx fs payload entries hdes
        simpa [hl, hw, hdes] using hres

theorem keysMatch_addOp (ctx : Ctx) (fs : List FsPath) (uvmHomeVar : Option String)
    (regPath : FsPath) (nonce : String) (fault : WriteFault) (w : World)
    (st : RegistryState) (entry : EnvironmentEntry) (ov reqm : Bool)
    (hk : keysMatchB st.entries = true) :
    keysMatchB (addOp ctx fs uvmHomeVar regPath nonce fault w st entry ov reqm).st.entries
      = true := by
  have hE0 := keysMatch_ensureLoaded ctx fs w st hk
  rcases hE : ensureLoadedFn ctx fs w st with ⟨res, st1, evs⟩
  rw [hE] at hE0
  unfold addOp
  rcases res with e | u
  · cases reqm
    · simpa [hE] using hE0
    · rcases hm : ensureManagedEnvPath ctx uvmHomeVar entry.location with em | pm
      · simpa [hm] using hk
      · simpa [hE, hm] using hE0
  · by_cases hmem : (!ov && alMem st1.entries entry.name) = true
    · cases reqm
      · simpa [hE, hmem] using hE0
      · rcases hm : ensureManagedEnvPath ctx uvmHomeVar entry.location with em | pm
        · simpa [hm] using hk
        · simpa [hE, hm, hmem] using hE0
    · have hins := keysMatch_alInsert st1.entries entry.name entry hE0 rfl
      cases reqm
      · simpa [hE, hmem] using hins
      · rcases hm : ensureManagedEnvPath ctx uvmHomeVar entry.location with em | pm
        · simpa [hm] using hk
        · simpa [hE, hm, hmem] using hins

theorem keysMatch_updateOp (ctx : Ctx) (fs : List FsPath) (regPath : FsPath)
    (nonce : String) (fault : WriteFault) (w : World) (st : RegistryState)
    (entry : EnvironmentEntry) (hk : keysMatchB st.entries = true) :
    keysMatchB (updateOp ctx fs regPath nonce fault w st entry).st.entries = true := by
  have hE0 := keysMatch_ensureLoaded ctx fs w st hk
  rcases hE : ensureLoadedFn ctx fs w st with ⟨res, st1, evs⟩
  rw [hE] at hE0
  unfold updateOp
  rcases res with e | u
  · simpa [hE] using hE0
  · by_cases hmem : alMem st1.entries entry.name = true
    · have hins := keysMatch_alInsert st1.entries entry.name entry hE0 rfl
      simpa [hE, hmem] using hins
    · simpa [hE, hmem] using hE0

theorem keysMatch_removeOp (ctx : Ctx) (fs : List FsPath) (regPath : FsPath)
    (nonce : String) (fault : WriteFault) (w : World) (st : RegistryState)
    (name : String) (hk : keysMatchB st.entries = true) :
    keysMatchB (removeOp ctx fs regPath nonce fault w st name).st.entries = true := by
  have hE0 := keysMatch_ensureLoaded ctx fs w st hk
  rcases hE : ensureLoadedFn ctx fs w st with ⟨res, st1, evs⟩
  rw [hE] at hE0
  unfold removeOp
  rcases res with e | u
  · simpa [hE] using hE0
  · by_cases hmem : alMem st1.entries name = true
    · have hrem := keysMatch_alRemove st1.entries name hE0
      rcases hwp : writePayload regPath nonce fault
          (serialiseEntries (alRemove st1.entries name)) w with ⟨wres, w2, evs2⟩
      rcases wres with we | wu
      · simpa [hE, hmem, hwp] using hrem
      · simpa [hE, hmem, hwp] using hrem
    · simpa [hE, hmem] using hE0

theorem keysMatch_syncOp (ctx : Ctx) (fs : List FsPath) (regPath : FsPath)
    (nonce : String) (fault : WriteFault) (w : World) (st : RegistryState)
    (hk : keysMatchB st.entries = true) :
    keysMatchB (syncOp ctx fs regPath nonce fault w st).st.entries = true := by
  have hE0 := keysMatch_ensureLoaded ctx fs w st hk
  rcases hE : ensureLoadedFn ctx fs w st with ⟨res, st1, evs⟩
  rw [hE] at hE0
  unfold syncOp
  rcases res with e | u
  · simpa [hE] using hE0
  · by_cases hse :
        ((st1.entries.filter (fun kv => !existsOnFs fs kv.2.location)).map
          Prod.fst).isEmpty = true
    · simpa [hE, hse] using hE0
    · have hrem := keysMatch_foldl_alRemove
        ((st1.entries.filter (fun kv => !existsOnFs fs kv.2.location)).map Prod.fst)
        st1.entries hE0
      rcases hwp : writePayload regPath nonce fault
          (serialiseEntries
            (((st1.entries.filter (fun kv => !existsOnFs fs kv.2.location)).map
              Prod.fst).foldl alRemove st1.entries)) w with ⟨wres, w2, evs2⟩
      rcases wres with we | wu
      · simpa [hE, hse, hwp] using hrem
      · simpa [hE, hse, hwp] using hrem

/-- C10: after deserialisation (from raw JSON or from a dict-level payload)
and after every mutating operation, each key of the in-memory map equals the
`name` field of the entry it maps to; and when a stored record carries its
own `name`, that (validated) internal name — not the enclosing JSON key —
becomes the map key. -/
theorem registry_key_invariant_spec (ctx : Ctx) (fs : List FsPath)
    (uvmHomeVar : Option String) (regPath : FsPath) (nonce : String)
    (fault : WriteFault) (w : World) (st : RegistryState)
    (entry : EnvironmentEntry) (name : String) (ov reqm ex : Bool)
    (content : FileJson) (payload : Payload) (k n : String) (r : Record)
    (m m2 m3 : List (String × EnvironmentEntry)) :
    (readPayload ctx fs ex content = .ok m → keysMatchB m = true) ∧
    (deserialiseRecords ctx fs payload = .ok m2 → keysMatchB m2 = true) ∧
    (keysMatchB st.entries = true →
      keysMatchB (addOp ctx fs uvmHomeVar regPath nonce fault w st entry ov reqm).st.entries
        = true ∧
      keysMatchB (updateOp ctx fs regPath nonce fault w st entry).st.entries = true ∧
      keysMatchB (removeOp ctx fs regPath nonce fault w st name).st.entries = true ∧
      keysMatchB (syncOp ctx fs regPath nonce fault w st).st.entries = true ∧
      keysMatchB (reloadOp ctx fs w st).2.1.entries = true) ∧
    (r.name = some n → deserialiseRecords ctx fs ⟨1, [(k, r)]⟩ = .ok m3 →
      m3.map Prod.fst = [pyStrip n]) := by
  refine ⟨keysMatch_readPayload ctx fs ex content m,
    keysMatch_deserialiseRecords ctx fs payload m2, ?_, ?_⟩
  · intro hk
    exact ⟨keysMatch_addOp ctx fs uvmHomeVar regPath nonce fault w st entry ov reqm hk,
      keysMatch_updateOp ctx fs regPath nonce fault w st entry hk,
      keysMatch_removeOp ctx fs regPath nonce fault w st name hk,
      keysMatch_syncOp ctx fs regPath nonce fault w st hk,
      keysMatch_ensureLoaded ctx fs w ⟨[], false⟩ rfl⟩
  · intro hn hdes
    unfold deserialiseRecords at hdes
    simp only [sortByKey, List.foldl_cons, List.foldl_nil, insByKey] at hdes
    rw [if_neg (by simp)] at hdes
    simp only [deserialiseRecLoop] at hdes
    obtain ⟨e, hfr, hdes⟩ := (exbind_ok_iff _ _ _).mp hdes
    have hname : (withNameDefault k r).name = some n := by
      simp [withNameDefault, hn]
    have hEname := fromRecord_name ctx fs (withNameDefault k r) n e hname hfr
    injection hdes with h2
    subst h2
    simp [alInsert, hEname]

/-- Witness for C10 at concrete inputs: load from JSON, run `add`, and load a
record whose internal name `" real "` differs from its JSON key `"k"`. -/
theorem registry_key_invariant_spec_witness :
    keysMatchB (addOp ctx0 [] (some "/um") regPath0 "n0" .noFault ⟨none, []⟩
      ⟨[("demo", demoEntry)], true⟩ demoEntry true false).st.entries = true ∧
    keysMatchB [("real", ⟨"real", ⟨true, ["um", "envs", "e"]⟩, none, none, false, []⟩)]
      = true ∧
    [("real", (⟨"real", ⟨true, ["um", "envs", "e"]⟩, none, none, false,
      []⟩ : EnvironmentEntry))].map Prod.fst = [pyStrip " real "] := by
  have h := registry_key_invariant_spec ctx0 [] (some "/um") regPath0 "n0" .noFault
    ⟨none, []⟩ ⟨[("demo", demoEntry)], true⟩ demoEntry "demo" true false true
    (.val (.obj [("environments", .obj [("k", .obj [("name", .scalar (.js " real ")),
      ("location", .scalar (.js "/um/envs/e"))])])]))
    ⟨1, []⟩ "k" " real "
    ⟨some " real ", some ⟨true, ["um", "envs", "e"]⟩, none, none, none, .noneV⟩
    [("real", ⟨"real", ⟨true, ["um", "envs", "e"]⟩, none, none, false, []⟩)] []
    [("real", ⟨"real", ⟨true, ["um", "envs", "e"]⟩, none, none, false, []⟩)]
  exact ⟨(h.2.2.1 (by decide)).1, h.1 (by decide), h.2.2.2 rfl (by decide)⟩

/-! ### Path-resolution lemmas -/

theorem resolveAcc_no_dots : ∀ (l acc : List String),
    (∀ c ∈ acc, c ≠ "." ∧ c ≠ "..") →
    ∀ c ∈ resolveAcc acc l, c ≠ "." ∧ c ≠ ".." := by
  intro l
  induction l with
  | nil =>
    intro acc hacc c hc
    rw [resolveAcc] at hc
    exact hacc c (List.mem_reverse.mp hc)
  | cons x rest ih =>
    intro acc hacc c hc
    rw [resolveAcc] at hc
    by_cases hx1 : x = "."
    · rw [if_pos hx1] at hc
      exact ih acc hacc c hc
    · rw [if_neg hx1] at hc
      by_cases hx2 : x = ".."
      · rw [if_pos hx2] at hc
        exact ih (acc.drop 1) (fun d hd => hacc d (List.drop_subset 1 acc hd)) c hc
      · rw [if_neg hx2] at hc
        refine ih (x :: acc) ?_ c hc
        intro d hd
        rcases List.mem_cons.mp hd with h | h
        · subst h; exact ⟨hx1, hx2⟩
        · exact hacc d h

theorem resolveAcc_no_dots_id : ∀ (l acc : List String),
    (∀ c ∈ l, c ≠ "." ∧ c ≠ "..") → resolveAcc acc l = acc.reverse ++ l := by
  intro l
  induction l with
  | nil => intro acc _; simp [resolveAcc]
  | cons x rest ih =>
    intro acc hl
    have hx := hl x (by simp)
    rw [resolveAcc, if_neg hx.1, if_neg hx.2, ih (x :: acc) (fun c hc => hl c (by simp [hc]))]
    simp

theorem resolve_of_canonical (cwd : FsPath) (p : FsPath) (habs : p.absolute = true)
    (hnd : ∀ c ∈ p.parts, c ≠ "." ∧ c ≠ "..") : resolve cwd p = p := by
  rcases p with ⟨a, parts⟩
  simp only at habs hnd
  subst habs
  simp [resolve, resolveAcc_no_dots_id parts [] hnd]

theorem resolve_resolve (cwd p : FsPath) : resolve cwd (resolve cwd p) = resolve cwd p := by
  apply resolve_of_canonical
  · rfl
  · exact resolveAcc_no_dots _ [] (by simp)

theorem expandUser_absolute (home p : FsPath) (h : p.absolute = true) :
    expandUser home p = p := by
  cases hp : p.parts with
  | nil => simp [expandUser, hp]
  | cons a rest =>
    by_cases ha : a = "~"
    · simp [expandUser, hp, ha, h]
    · simp [expandUser, hp, ha]

theorem normalizeEnvPath_absolute (ctx : Ctx) (p : FsPath) (h : p.absolute = true) :
    normalizeEnvPath ctx p = .ok (resolve ctx.cwd p) := by
  simp [normalizeEnvPath, expandUserPath, expandUser_absolute ctx.home p h, h, Except.map]

theorem isWithinHome_resolve (ctx : Ctx) (x : FsPath) :
    isWithinHome ctx (resolve ctx.cwd x) =
      .ok (relativeToOk (resolve ctx.cwd ctx.home) (resolve ctx.cwd x)) := by
  have habs : (resolve ctx.cwd x).absolute = true := rfl
  simp [isWithinHome, normalizeEnvPath_absolute ctx _ habs, resolve_resolve, Except.map]

/-- Full characterisation of `validate_safe_path`: it fails (always with
`InvalidPathError`) exactly on a NUL byte in the raw string form, a raw
`".."` component, an empty expanded path, a non-absolute normalisation
result (impossible for `resolve`), or — when outside-home is not allowed — a
normalised result outside the home directory; otherwise it returns the
normalised path. -/
theorem validateSafePath_cases (ctx : Ctx) (allow : Bool) (value : FsPath) :
    (validateSafePath ctx allow value = .error .invalidPath ↔
      (containsNullByte value.render = true ∨
       value.parts.any (fun c => c = "..") = true ∨
       ((expandUser ctx.home value).absolute = false ∧
        (expandUser ctx.home value).parts = []) ∨
       (resolve ctx.cwd (expandUser ctx.home value)).absolute = false ∨
       (allow = false ∧
        relativeToOk (resolve ctx.cwd ctx.home)
          (resolve ctx.cwd (expandUser ctx.home value)) = false))) ∧
    (validateSafePath ctx allow value ≠ .error .invalidPath →
      validateSafePath ctx allow value =
        .ok (resolve ctx.cwd (expandUser ctx.home value))) := by
  by_cases h1 : containsNullByte value.render = true
  · have hv : validateSafePath ctx allow value = .error .invalidPath := by
      simp [validateSafePath, h1]
    exact ⟨⟨fun _ => Or.inl h1, fun _ => hv⟩, fun hne => absurd hv hne⟩
  · have hb1 : containsNullByte value.render = false := Bool.eq_false_iff.mpr h1
    by_cases h2 : value.parts.any (fun c => c = "..") = true
    · have hv : validateSafePath ctx allow value = .error .invalidPath := by
        simp [validateSafePath, hb1, h2]
      exact ⟨⟨fun _ => Or.inr (Or.inl h2), fun _ => hv⟩, fun hne => absurd hv hne⟩
    · have hb2 : (value.parts.any (fun c => c = "..")) = false := Bool.eq_false_iff.mpr h2
      by_cases h3 : (!(expandUser ctx.home value).absolute
          && (expandUser ctx.home value).parts.isEmpty) = true
      · have hnorm : normalizeEnvPath ctx value = .error .invalidPath := by
          simp only [normalizeEnvPath, expandUserPath]
          rw [if_pos h3]
          rfl
        have hv : validateSafePath ctx allow value = .error .invalidPath := by
          simp [validateSafePath, hb1, hb2, hnorm]
        have hcond : (expandUser ctx.home value).absolute = false ∧
            (expandUser ctx.home value).parts = [] := by
          have h3c := h3
          rw [Bool.and_eq_true] at h3c
          exact ⟨by simpa using h3c.1, by simpa [List.isEmpty_iff] using h3c.2⟩
        exact ⟨⟨fun _ => Or.inr (Or.inr (Or.inl hcond)), fun _ => hv⟩,
          fun hne => absurd hv hne⟩
      · have h3f : (!(expandUser ctx.home value).absolute
            && (expandUser ctx.home value).parts.isEmpty) = false := Bool.eq_false_iff.mpr h3
        have hnorm : normalizeEnvPath ctx value =
            .ok (resolve ctx.cwd (expandUser ctx.home value)) := by
          simp only [normalizeEnvPath, expandUserPath]
          rw [if_neg (by simp [h3f])]
          simp [Except.map]
        have habs : (resolve ctx.cwd (expandUser ctx.home value)).absolute = true := rfl
        have hno3 : ¬((expandUser ctx.home value).absolute = false ∧
            (expandUser ctx.home value).parts = []) := by
          rintro ⟨ha, hb⟩
          rw [ha, hb] at h3f
          simp at h3f
        cases allow with
        | true =>
          have hv : validateSafePath ctx true value =
              .ok (resolve ctx.cwd (expandUser ctx.home value)) := by
            simp [validateSafePath, hb1, hb2, hnorm, habs]
          refine ⟨⟨fun hc => absurd hc (by rw [hv]; simp), ?_⟩, fun _ => hv⟩
          rintro (hc | hc | hc | hc | hc)
          · rw [hc] at hb1; cases hb1
          · rw [hc] at hb2; cases hb2
          · exact absurd hc hno3
          · rw [habs] at hc; cases hc
          · exact absurd hc.1 (by decide)
        | false =>
          cases hwi : relativeToOk (resolve ctx.cwd ctx.home)
              (resolve ctx.cwd (expandUser ctx.home value)) with
          | false =>
            have hv : validateSafePath ctx false value = .error .invalidPath := by
              simp [validateSafePath, hb1, hb2, hnorm, habs, isWithinHome_resolve, hwi]
            exact ⟨⟨fun _ => Or.inr (Or.inr (Or.inr (Or.inr ⟨rfl, rfl⟩))), fun _ => hv⟩,
              fun hne => absurd hv hne⟩
          | true =>
            have hv : validateSafePath ctx false value =
                .ok (resolve ctx.cwd (expandUser ctx.home value)) := by
              simp [validateSafePath, hb1, hb2, hnorm, habs, isWithinHome_resolve, hwi]
            refine ⟨⟨fun hc => absurd hc (by rw [hv]; simp), ?_⟩, fun _ => hv⟩
            rintro (hc | hc | hc | hc | hc)
            · rw [hc] at hb1; cases hb1
            · rw [hc] at hb2; cases hb2
            · exact absurd hc hno3
            · rw [habs] at hc; cases hc
            · exact absurd hc.2 (by decide)
theorem validateSafePath_error_eq (ctx : Ctx) (allow : Bool) (value : FsPath)
    (e : UvmErr) (h : validateSafePath ctx allow value = .error e) :
    e = .invalidPath := by
  by_contra hne
  have h2 := (validateSafePath_cases ctx allow value).2 (by
    rw [h]
    intro hc
    injection hc with h3
    exact hne h3)
  rw [h] at h2
  cases h2

/-! ### C7 — validate_safe_path -/

/-- Counterexample to C7 as stated: for the empty input path none of the
failure conditions of the claim holds — no NUL byte in the raw string form
(`str(Path(""))` is `"."`), no `".."` component, the normalised result is
absolute and inside the home directory — yet `validate_safe_path` raises
`InvalidPathError` (the empty path is rejected by `expand_user_path`). -/
theorem validate_safe_path_empty_counterexample :
    containsNullByte (parsePath "").render = false ∧
    (parsePath "").parts.any (fun c => c = "..") = false ∧
    (resolve ctx0.cwd (expandUser ctx0.home (parsePath ""))).absolute = true ∧
    relativeToOk (resolve ctx0.cwd ctx0.home)
      (resolve ctx0.cwd (expandUser ctx0.home (parsePath ""))) = true ∧
    validateSafePath ctx0 false (parsePath "") = .error .invalidPath := by
  refine ⟨by decide, by decide, by decide, by decide, by decide⟩

/-- C7 (amended): `validate_safe_path` fails with `InvalidPath` exactly when
the raw string form contains a NUL byte, or a raw component equals `".."`
(so `"../evil"` always fails), or the path has no components after home
expansion (e.g. the empty path), or the normalised result is not absolute,
or — unless `allow_outside_home` — the normalised result is outside the home
directory; otherwise it returns the normalised path. -/
theorem validate_safe_path_amended (ctx : Ctx) (allow : Bool) (value : FsPath) :
    (validateSafePath ctx allow value = .error .invalidPath ↔
      (containsNullByte value.render = true ∨
       value.parts.any (fun c => c = "..") = true ∨
       ((expandUser ctx.home value).absolute = false ∧
        (expandUser ctx.home value).parts = []) ∨
       (resolve ctx.cwd (expandUser ctx.home value)).absolute = false ∨
       (allow = false ∧
        relativeToOk (resolve ctx.cwd ctx.home)
          (resolve ctx.cwd (expandUser ctx.home value)) = false))) ∧
    (validateSafePath ctx allow value ≠ .error .invalidPath →
      validateSafePath ctx allow value =
        .ok (resolve ctx.cwd (expandUser ctx.home value))) :=
  validateSafePath_cases ctx allow value

/-- Witness for C7: `"../evil"` always fails with `InvalidPath`, and a plain
path inside the home directory validates to its normalised form. -/
theorem validate_safe_path_amended_witness :
    validateSafePath ctx0 false (parsePath "../evil") = .error .invalidPath ∧
    validateSafePath ctx0 false (parsePath "/home/u/x") =
      .ok ⟨true, ["home", "u", "x"]⟩ := by
  refine ⟨(validate_safe_path_amended ctx0 false (parsePath "../evil")).1.mpr
    (Or.inr (Or.inl (by decide))), ?_⟩
  have h := (validate_safe_path_amended ctx0 false (parsePath "/home/u/x")).2 (by decide)
  rw [h]
  decide

/-! ### C8 — ensure_managed_env_path -/

/-- Counterexample to C8 as stated: with `UVM_HOME=/um` the managed root is
`/um/envs`; the input `/um/envs/x/../y` normalises to `/um/envs/y`, a
descendant of the root, yet `ensure_managed_env_path` fails (with
`InvalidPathError` from the traversal check, not success). -/
theorem ensure_managed_traversal_counterexample :
    getManagedEnvRoot ctx0 (some "/um") = .ok ⟨true, ["um", "envs"]⟩ ∧
    resolve ctx0.cwd (expandUser ctx0.home (parsePath "/um/envs/x/../y")) =
      ⟨true, ["um", "envs", "y"]⟩ ∧
    relativeToOk ⟨true, ["um", "envs"]⟩ ⟨true, ["um", "envs", "y"]⟩ = true ∧
    ensureManagedEnvPath ctx0 (some "/um") (parsePath "/um/envs/x/../y") =
      .error .invalidPath := by
  refine ⟨by decide, by decide, by decide, by decide⟩

/-- C8 (amended): provided the managed-root computation succeeds,
`ensure_managed_env_path` returns the normalised path exactly when safe
validation passes and the result is under (a descendant of or equal to)
`<UVM_HOME>/envs`; it fails with `OutsideManagedRoot` exactly when
validation passes but the normalised path is outside the managed root; and
an input rejected by safe validation propagates that `InvalidPath` error
even when its normalised form would fall under the root. -/
theorem ensure_managed_amended (ctx : Ctx) (uvmHomeVar : Option String)
    (value p root : FsPath)
    (hroot : getManagedEnvRoot ctx uvmHomeVar = .ok root) :
    (validateSafePath ctx true value = .ok p →
      ensureManagedEnvPath ctx uvmHomeVar value =
        (if relativeToOk root p then .ok p else .error .outsideManagedRoot)) ∧
    (∀ e, validateSafePath ctx true value = .error e →
      ensureManagedEnvPath ctx uvmHomeVar value = .error e) ∧
    (ensureManagedEnvPath ctx uvmHomeVar value = .error .outsideManagedRoot ↔
      ∃ q, validateSafePath ctx true value = .ok q ∧ relativeToOk root q = false) := by
  refine ⟨?_, ?_, ?_, ?_⟩
  · intro hv
    simp [ensureManagedEnvPath, hv, hroot]
  · intro e hv
    simp [ensureManagedEnvPath, hv]
  · intro h
    cases hv : validateSafePath ctx true value with
    | error e =>
      have he := validateSafePath_error_eq ctx true value e hv
      subst he
      unfold ensureManagedEnvPath at h
      rw [hv] at h
      simp at h
    | ok q =>
      unfold ensureManagedEnvPath at h
      rw [hv, hroot] at h
      simp only [exbind_ok] at h
      by_cases hrel : relativeToOk root q = true
      · rw [if_pos hrel] at h
        cases h
      · refine ⟨q, rfl, Bool.eq_false_iff.mpr hrel⟩
  · rintro ⟨q, hv, hrel⟩
    simp [ensureManagedEnvPath, hv, hroot, hrel]

/-- Witness for C8: a path under the managed root succeeds with its
normalised form; a path outside it fails with `OutsideManagedRoot`. -/
theorem ensure_managed_amended_witness :
    ensureManagedEnvPath ctx0 (some "/um") (parsePath "/um/envs/demo") =
      .ok ⟨true, ["um", "envs", "demo"]⟩ ∧
    ensureManagedEnvPath ctx0 (some "/um") (parsePath "/elsewhere") =
      .error .outsideManagedRoot := by
  have h1 := ensure_managed_amended ctx0 (some "/um") (parsePath "/um/envs/demo")
    ⟨true, ["um", "envs", "demo"]⟩ ⟨true, ["um", "envs"]⟩ (by decide)
  have h2 := ensure_managed_amended ctx0 (some "/um") (parsePath "/elsewhere")
    ⟨true, ["elsewhere"]⟩ ⟨true, ["um", "envs"]⟩ (by decide)
  constructor
  · rw [h1.1 (by decide)]
    decide
  · exact h2.2.2.mpr ⟨⟨true, ["elsewhere"]⟩, by decide, by decide⟩

/-! ### C6 — helper lemmas on strip, metadata and canonical locations -/

theorem dropWhile_dropWhile {α : Type} (p : α → Bool) (l : List α) :
    (l.dropWhile p).dropWhile p = l.dropWhile p := by
  induction l with
  | nil => rfl
  | cons a t ih =>
    by_cases hp : p a = true
    · simp [List.dropWhile_cons, hp, ih]
    · simp [List.dropWhile_cons, hp]

theorem dropWhile_head_false {α : Type} (p : α → Bool) :
    ∀ (l : List α) (a : α) (t : List α), l.dropWhile p = a :: t → p a = false := by
  intro l
  induction l with
  | nil => intro a t h; cases h
  | cons x xs ih =>
    intro a t h
    by_cases hp : p x = true
    · rw [List.dropWhile_cons, if_pos hp] at h
      exact ih a t h
    · rw [List.dropWhile_cons, if_neg hp] at h
      injection h with h1 _
      subst h1
      exact Bool.eq_false_iff.mpr hp

theorem dropWhile_suffix_ex {α : Type} (p : α → Bool) (l : List α) :
    ∃ t, l = t ++ l.dropWhile p := by
  induction l with
  | nil => exact ⟨[], rfl⟩
  | cons x xs ih =>
    by_cases hp : p x = true
    · obtain ⟨t, ht⟩ := ih
      exact ⟨x :: t, by rw [List.dropWhile_cons, if_pos hp]; simpa using ht⟩
    · exact ⟨[], by rw [List.dropWhile_cons, if_neg hp]; simp⟩

theorem stripChars_idem (l : List Char) :
    (((((l.dropWhile isPyWs).reverse.dropWhile isPyWs).reverse.dropWhile
        isPyWs).reverse.dropWhile isPyWs).reverse) =
      ((l.dropWhile isPyWs).reverse.dropWhile isPyWs).reverse := by
  set a := l.dropWhile isPyWs with ha
  set b := a.reverse.dropWhile isPyWs with hb
  cases hr : b.reverse with
  | nil => simp
  | cons c t2 =>
    obtain ⟨t, ht⟩ := dropWhile_suffix_ex isPyWs a.reverse
    have ha2 : a = b.reverse ++ t.reverse := by
      have hrev := congrArg List.reverse ht
      rw [← hb] at hrev
      simpa using hrev
    have hac : a = c :: (t2 ++ t.reverse) := by rw [ha2, hr]; simp
    have hcw : isPyWs c = false :=
      dropWhile_head_false isPyWs l c (t2 ++ t.reverse) (ha.symm.trans hac)
    have h1 : (c :: t2).dropWhile isPyWs = c :: t2 := by
      simp [List.dropWhile_cons, hcw]
    rw [h1]
    have h2 : (c :: t2).reverse = b := by rw [← hr]; simp
    rw [h2]
    have h3 : b.dropWhile isPyWs = b := by rw [hb]; exact dropWhile_dropWhile isPyWs a.reverse
    rw [h3]
    exact hr

theorem pyStrip_idem (s : String) : pyStrip (pyStrip s) = pyStrip s := by
  unfold pyStrip
  exact congrArg String.mk (stripChars_idem s.data)

theorem ensureMetadataKeys_str (md : List (String × JVal)) :
    ensureMetadataKeys (md.map (fun kv => (MKey.str kv.1, kv.2))) = .ok md := by
  induction md with
  | nil => rfl
  | cons kv rest ih =>
    cases kv
    simp [ensureMetadataKeys, ih, Except.map]

theorem ensureMetadataFn_str (md : List (String × JVal)) :
    ensureMetadataFn (.map (md.map (fun kv => (MKey.str kv.1, kv.2)))) = .ok md := by
  cases md with
  | nil => rfl
  | cons kv rest =>
    have h := ensureMetadataKeys_str (kv :: rest)
    simp only [List.map_cons] at h
    simp [ensureMetadataFn, h]

theorem noDots_iff (l : List String) :
    noDots l = true ↔ ∀ c ∈ l, c ≠ "." ∧ c ≠ ".." := by
  simp [noDots, List.all_eq_true]

theorem validateSafePath_canonical (ctx : Ctx) (loc : FsPath)
    (habs : loc.absolute = true) (hnd : noDots loc.parts = true)
    (hnull : containsNullByte loc.render = false) :
    validateSafePath ctx true loc = .ok loc := by
  have hexp : expandUser ctx.home loc = loc := expandUser_absolute _ _ habs
  have hres : resolve ctx.cwd (expandUser ctx.home loc) = loc := by
    rw [hexp]
    exact resolve_of_canonical _ _ habs ((noDots_iff _).mp hnd)
  have h2 : validateSafePath ctx true loc ≠ .error .invalidPath := by
    intro hc
    rcases (validateSafePath_cases ctx true loc).1.mp hc with h | h | h | h | h
    · rw [hnull] at h; cases h
    · rcases List.any_eq_true.mp h with ⟨c, hc1, hc2⟩
      exact (((noDots_iff _).mp hnd) c hc1).2 (of_decide_eq_true hc2)
    · rw [hexp] at h
      rw [habs] at h
      exact absurd h.1 (by decide)
    · rw [hres, habs] at h
      cases h
    · exact absurd h.1 (by decide)
  have h3 := (validateSafePath_cases ctx true loc).2 h2
  rw [hres] at h3
  exact h3

theorem normalizeEnvPath_ok_shape (ctx : Ctx) (p loc : FsPath)
    (h : normalizeEnvPath ctx p = .ok loc) : ∃ q, loc = resolve ctx.cwd q := by
  unfold normalizeEnvPath at h
  cases hexp : expandUserPath ctx.home p with
  | error e => rw [hexp] at h; simp [Except.map] at h
  | ok q =>
    rw [hexp] at h
    simp [Except.map] at h
    exact ⟨q, h.symm⟩

theorem tzNormalize_id (d : DT) (h : d.off = some 0) : tzNormalize d = d := by
  rcases d with ⟨clock, off⟩
  simp only at h
  subst h
  simp [tzNormalize]

theorem entryOkB_parts (fs : List FsPath) (e : EnvironmentEntry)
    (h : entryOkB fs e = true) :
    pyStrip e.name = e.name ∧ ¬(e.name = "") ∧ e.location.absolute = true ∧
    noDots e.location.parts = true ∧
    (existsOnFs fs e.location = true ∨ containsNullByte e.location.render = false) ∧
    e.created_at.map tzNormalize = e.created_at := by
  simp only [entryOkB, Bool.and_eq_true, decide_eq_true_eq] at h
  obtain ⟨⟨⟨⟨⟨h1, h2⟩, h3⟩, h4⟩, h5⟩, h6⟩ := h
  refine ⟨h1, h2, h3, h4, ?_, ?_⟩
  · have h5p := h5
    rw [Bool.or_eq_true] at h5p
    rcases h5p with h | h
    · exact Or.inl h
    · right; simpa using h
  · cases hc : e.created_at with
    | none => rfl
    | some d =>
      rw [hc] at h6
      simp only [Option.map]
      rw [tzNormalize_id d (by simpa using h6)]

theorem mkEntry_of_entryOk (ctx : Ctx) (fs : List FsPath) (e : EnvironmentEntry)
    (h : entryOkB fs e = true) :
    mkEntry ctx fs e.name e.location e.python_version e.created_at e.is_project_local
      (.map (e.metadata.map (fun kv => (MKey.str kv.1, kv.2)))) = .ok e := by
  obtain ⟨h1, h2, h3, h4, h5, h6⟩ := entryOkB_parts fs e h
  have hnorm : normalizeEnvPath ctx e.location = .ok e.location := by
    rw [normalizeEnvPath_absolute ctx e.location h3,
      resolve_of_canonical ctx.cwd e.location h3 ((noDots_iff _).mp h4)]
  have hsafe : (if existsOnFs fs e.location then (.ok () : Except UvmErr Unit)
      else exbind (validateSafePath ctx true e.location) (fun _ => .ok ())) = .ok () := by
    by_cases hex : existsOnFs fs e.location = true
    · rw [if_pos hex]
    · rcases h5 with h5 | h5
      · exact absurd h5 hex
      · rw [if_neg hex, validateSafePath_canonical ctx e.location h3 h4 h5]
        rfl
  simp only [mkEntry, h1]
  rw [if_neg h2, hnorm]
  simp only [exbind_ok]
  rw [hsafe]
  simp only [exbind_ok]
  rw [ensureMetadataFn_str]
  simp only [exbind_ok]
  rw [h6]

theorem fromRecord_toRecord (ctx : Ctx) (fs : List FsPath) (e : EnvironmentEntry)
    (h : entryOkB fs e = true) :
    fromRecord ctx fs (toRecord e) = .ok e := by
  obtain ⟨h1, h2, h3, h4, h5, h6⟩ := entryOkB_parts fs e h
  have hnorm : normalizeEnvPath ctx e.location = .ok e.location := by
    rw [normalizeEnvPath_absolute ctx e.location h3,
      resolve_of_canonical ctx.cwd e.location h3 ((noDots_iff _).mp h4)]
  simp only [fromRecord, toRecord]
  rw [hnorm]
  simp only [exbind_ok]
  rw [ensureMetadataFn_str]
  simp only [exbind_ok, Option.getD_some]
  exact mkEntry_of_entryOk ctx fs e h

theorem mkEntry_entryOk (ctx : Ctx) (fs : List FsPath) (name : String)
    (location : FsPath) (pv : Option JVal) (dt : Option DT) (ipl : Bool)
    (mf : MetaField) (e2 : EnvironmentEntry)
    (h : mkEntry ctx fs name location pv dt ipl mf = .ok e2) :
    entryOkB fs e2 = true := by
  by_cases hn : pyStrip name = ""
  · simp [mkEntry, hn] at h
  · simp only [mkEntry] at h
    rw [if_neg hn] at h
    obtain ⟨loc, hnorm, h⟩ := (exbind_ok_iff _ _ _).mp h
    obtain ⟨u, hsafe, h⟩ := (exbind_ok_iff _ _ _).mp h
    obtain ⟨md, hmd, h⟩ := (exbind_ok_iff _ _ _).mp h
    injection h with h2
    subst h2
    obtain ⟨q, hq⟩ := normalizeEnvPath_ok_shape ctx location loc hnorm
    subst hq
    have c4 : noDots (resolve ctx.cwd q).parts = true :=
      (noDots_iff _).mpr (resolveAcc_no_dots _ [] (by simp))
    have c5 : existsOnFs fs (resolve ctx.cwd q) = true ∨
        containsNullByte (resolve ctx.cwd q).render = false := by
      by_cases hex : existsOnFs fs (resolve ctx.cwd q) = true
      · exact Or.inl hex
      · right
        rw [if_neg hex] at hsafe
        obtain ⟨pp, hval, _⟩ := (exbind_ok_iff _ _ _).mp hsafe
        by_contra hnull
        have hnt : containsNullByte (resolve ctx.cwd q).render = true := by
          cases hc : containsNullByte (resolve ctx.cwd q).render
          · exact absurd hc hnull
          · rfl
        have hbad := (validateSafePath_cases ctx true (resolve ctx.cwd q)).1.mpr
          (Or.inl hnt)
        rw [hval] at hbad
        cases hbad
    have c6 : (match dt.map tzNormalize with
        | none => true
        | some d => decide (d.off = some 0)) = true := by
      cases dt with
      | none => rfl
      | some d => cases hd : d.off <;> simp [Option.map, tzNormalize, hd]
    simp only [entryOkB, Bool.and_eq_true, decide_eq_true_eq]
    refine ⟨⟨⟨⟨⟨pyStrip_idem name, hn⟩, rfl⟩, c4⟩, ?_⟩, c6⟩
    rcases c5 with c5 | c5
    · simp [c5]
    · simp [c5]

theorem fromRecord_entryOk (ctx : Ctx) (fs : List FsPath) (r : Record)
    (e2 : EnvironmentEntry) (h : fromRecord ctx fs r = .ok e2) :
    entryOkB fs e2 = true := by
  unfold fromRecord at h
  rcases hn : r.name with _ | nm <;> rcases hl : r.location with _ | loc <;>
    rw [hn, hl] at h
  · simp at h
  · simp at h
  · simp at h
  · obtain ⟨locN, hnorm, h⟩ := (exbind_ok_iff _ _ _).mp h
    obtain ⟨md, hmd, h⟩ := (exbind_ok_iff _ _ _).mp h
    exact mkEntry_entryOk _ _ _ _ _ _ _ _ _ h

theorem ensureMetadataKeys_nonstr (l : List (MKey × JVal))
    (h : ∃ i v, (MKey.nonStr i, v) ∈ l) :
    ensureMetadataKeys l = .error .valueError := by
  induction l with
  | nil =>
    obtain ⟨i, v, hm⟩ := h
    cases hm
  | cons kv rest ih =>
    rcases kv with ⟨mk, v0⟩
    cases mk with
    | nonStr i => rfl
    | str k =>
      obtain ⟨i, v, hm⟩ := h
      rcases List.mem_cons.mp hm with hm | hm
      · cases hm
      · rw [ensureMetadataKeys, ih ⟨i, v, hm⟩]
        rfl

theorem ensureMetadataFn_nonstr (l : List (MKey × JVal))
    (h : ∃ i v, (MKey.nonStr i, v) ∈ l) :
    ensureMetadataFn (.map l) = .error .valueError := by
  cases l with
  | nil =>
    obtain ⟨i, v, hm⟩ := h
    cases hm
  | cons kv rest =>
    rw [ensureMetadataFn, if_neg (by simp)]
    exact ensureMetadataKeys_nonstr _ h

/-- C6: for every valid entry — one satisfying the construction invariant —
`from_dict ∘ to_dict` returns the entry itself (the timestamp is already
zone-normalised, so equality is exact); every successful `with_update`
result again satisfies the full construction invariant; and a blank name or
a non-string metadata key in the changes makes `with_update` raise
`ValueError` instead of being silently accepted. -/
theorem entry_roundtrip_with_update_spec (ctx : Ctx) (fs : List FsPath)
    (e e2 : EnvironmentEntry) (c : Changes) (s : String) (l : List (MKey × JVal)) :
    (entryOkB fs e = true → fromRecord ctx fs (toRecord e) = .ok e) ∧
    (withUpdate ctx fs e c = .ok e2 → entryOkB fs e2 = true) ∧
    (entryOkB fs e = true → c.name = some s → pyStrip s = "" →
      c.location = none → c.metadata = none →
      withUpdate ctx fs e c = .error .valueError) ∧
    (entryOkB fs e = true → c.location = none →
      c.metadata = some (.map l) → (∃ i v, (MKey.nonStr i, v) ∈ l) →
      withUpdate ctx fs e c = .error .valueError) := by
  refine ⟨fromRecord_toRecord ctx fs e, fromRecord_entryOk ctx fs _ e2, ?_, ?_⟩
  · intro he hcn hs hcl hcm
    obtain ⟨h1, h2, h3, h4, h5, h6⟩ := entryOkB_parts fs e he
    have hnorm : normalizeEnvPath ctx e.location = .ok e.location := by
      rw [normalizeEnvPath_absolute ctx e.location h3,
        resolve_of_canonical ctx.cwd e.location h3 ((noDots_iff _).mp h4)]
    simp only [withUpdate, mergeChanges, toRecord, hcn, hcl, hcm]
    simp only [fromRecord]
    rw [hnorm]
    simp only [exbind_ok]
    rw [ensureMetadataFn_str]
    simp only [exbind_ok]
    simp [mkEntry, hs]
  · intro he hcl hcm hbad
    obtain ⟨h1, h2, h3, h4, h5, h6⟩ := entryOkB_parts fs e he
    have hnorm : normalizeEnvPath ctx e.location = .ok e.location := by
      rw [normalizeEnvPath_absolute ctx e.location h3,
        resolve_of_canonical ctx.cwd e.location h3 ((noDots_iff _).mp h4)]
    simp only [withUpdate, mergeChanges, toRecord, hcl, hcm]
    simp only [fromRecord]
    cases hcn : c.name with
    | none =>
      simp only [hcn]
      rw [hnorm]
      simp only [exbind_ok]
      rw [ensureMetadataFn_nonstr l hbad]
      rfl
    | some nm =>
      simp only [hcn]
      rw [hnorm]
      simp only [exbind_ok]
      rw [ensureMetadataFn_nonstr l hbad]
      rfl

/-- Witness for C6 at the concrete `demo` entry: exact round-trip, the
invariant holds, and blank-name / non-string-key updates are rejected. -/
theorem entry_roundtrip_with_update_spec_witness :
    fromRecord ctx0 [] (toRecord demoEntry) = .ok demoEntry ∧
    entryOkB [] demoEntry = true ∧
    withUpdate ctx0 [] demoEntry { name := some " " } = .error .valueError ∧
    withUpdate ctx0 [] demoEntry { metadata := some (.map [(.nonStr 0, .ji 1)]) } =
      .error .valueError := by
  have h := entry_roundtrip_with_update_spec ctx0 [] demoEntry demoEntry
    { name := some " " } " " [(.nonStr 0, .ji 1)]
  have h2 := entry_roundtrip_with_update_spec ctx0 [] demoEntry demoEntry
    { metadata := some (.map [(.nonStr 0, .ji 1)]) } " " [(.nonStr 0, .ji 1)]
  exact ⟨h.1 (by decide), by decide,
    h.2.2.1 (by decide) rfl (by decide) rfl rfl,
    h2.2.2.2 (by decide) rfl rfl ⟨0, .ji 1, by simp⟩⟩

/-! ### C1 — when loading is RegistryCorrupted -/

/-- Counterexample to C1 as stated: a payload with no `version` key at all
(and even no `environments` key) loads successfully as the empty registry —
`_deserialise_entries` defaults a missing `version` to 1 and a missing
`environments` to `{}`, so neither is a hard load failure. -/
theorem registry_load_missing_version_loads :
    readPayload ctx0 [] true (.val (.obj [("environments", .obj [])])) = .ok [] ∧
    readPayload ctx0 [] true (.val (.obj [])) = .ok [] := by
  exact ⟨by decide, by decide⟩

/-- C1 (amended): loading fails with `RegistryCorrupted` when the file is
not valid JSON, when the top level is not a JSON object, when a *present*
`version` field fails `int()` coercion or coerces to something other than 1,
when a *present* `environments` field is not an object, when an entry record
is not an object, or when an entry record lacks the `location` key; a
missing `version` is treated as 1 and a missing `environments` as `{}`, and
a payload with both missing loads as the empty registry. -/
theorem registry_load_corruption_amended (ctx : Ctx) (fs : List FsPath)
    (kvs fields rest : List (String × Json)) (j nj : Json) (v : JVal) (n : Int)
    (k : String) (acc : List (String × EnvironmentEntry)) :
    (readPayload ctx fs true .invalid = .error .registryCorrupted) ∧
    (readPayload ctx fs true (.val (.scalar v)) = .error .registryCorrupted) ∧
    (jlookup kvs "version" = some j → pyIntOfJson j = none →
      deserialiseJson ctx fs kvs = .error .registryCorrupted) ∧
    (jlookup kvs "version" = some j → pyIntOfJson j = some n → n ≠ 1 →
      deserialiseJson ctx fs kvs = .error .registryCorrupted) ∧
    ((jlookup kvs "version" = none ∨
      (jlookup kvs "version" = some j ∧ pyIntOfJson j = some 1)) →
      jlookup kvs "environments" = some (.scalar v) →
      deserialiseJson ctx fs kvs = .error .registryCorrupted) ∧
    (jlookup kvs "version" = none → jlookup kvs "environments" = none →
      deserialiseJson ctx fs kvs = .ok []) ∧
    (deserialiseLoop ctx fs ((k, .scalar v) :: rest) acc = .error .registryCorrupted) ∧
    (jlookup fields "name" = some nj → jlookup fields "location" = none →
      jsonFromDict ctx fs fields = .error .registryCorrupted) := by
  refine ⟨rfl, rfl, ?_, ?_, ?_, ?_, rfl, ?_⟩
  · intro h1 h2
    simp [deserialiseJson, h1, h2]
  · intro h1 h2 h3
    simp [deserialiseJson, h1, h2, h3]
  · intro hver henv
    rcases hver with hver | ⟨hver, hint⟩
    · simp [deserialiseJson, hver, henv]
    · simp [deserialiseJson, hver, hint, henv]
  · intro h1 h2
    simp [deserialiseJson, h1, h2, sortByKey, deserialiseLoop]
  · intro h1 h2
    simp [jsonFromDict, h1, h2]

/-- Witness for C1 (amended) at concrete payloads: a null version and a
version of 2 are corrupted, a non-object `environments` is corrupted, an
entry record without `location` is corrupted, and the empty object loads. -/
theorem registry_load_corruption_amended_witness :
    deserialiseJson ctx0 [] [("version", .scalar .null)] = .error .registryCorrupted ∧
    deserialiseJson ctx0 [] [("version", .scalar (.ji 2))] = .error .registryCorrupted ∧
    deserialiseJson ctx0 [] [("environments", .scalar (.ji 3))] =
      .error .registryCorrupted ∧
    jsonFromDict ctx0 [] [("name", .scalar (.js "x"))] = .error .registryCorrupted ∧
    deserialiseJson ctx0 [] [] = .ok [] := by
  have h1 := registry_load_corruption_amended ctx0 [] [("version", .scalar .null)]
    [("name", .scalar (.js "x"))] [] (.scalar .null) (.scalar .null) (.ji 3) 2 "k" []
  have h2 := registry_load_corruption_amended ctx0 [] [("version", .scalar (.ji 2))]
    [("name", .scalar (.js "x"))] [] (.scalar (.ji 2)) (.scalar .null) (.ji 3) 2 "k" []
  have h3 := registry_load_corruption_amended ctx0 [] [("environments", .scalar (.ji 3))]
    [("name", .scalar (.js "x"))] [] (.scalar .null) (.scalar .null) (.ji 3) 2 "k" []
  have h4 := registry_load_corruption_amended ctx0 [] [] [("name", .scalar (.js "x"))]
    [] (.scalar .null) (.scalar (.js "x")) (.ji 3) 2 "k" []
  exact ⟨h1.2.2.1 rfl rfl, h2.2.2.2.1 rfl rfl (by decide),
    h3.2.2.2.2.1 (Or.inl rfl) rfl,
    h4.2.2.2.2.2.2.2 rfl rfl,
    h4.2.2.2.2.2.1 rfl rfl⟩

end Uvm
